import Mathlib

/-
Verification of the NRB (NoiR Binary) codec library, a shallow embedding of
src/nrb.c and src/nrb.h.

Modelling conventions:
  * A byte stream (FILE read sequentially) is a `List Nat` of byte values;
    `nrb_readByte` fails on an empty stream (EOF / I/O error) and on an
    entry outside [0,255], which no real stream produces.
  * Every sequential reader has type `List Nat → Option (α × List Nat)`:
    `none` models the C function's failure signal (the -1 / zero-status
    return), `some (v, rest)` a successful read leaving `rest` unread.
  * A C `abort()` (fatal contract violation) is modelled by `none` in an
    `Option` result: no successor state exists.
  * Machine integers are modelled by `Nat` / `Int` with explicit bounds:
    the C range checks of the source are reproduced verbatim.
-/

/-! ## Constants (from nrb.h and nrb.c) -/

def NRB_MAXSECT : Nat := 65535

def NRB_MAXNOTE : Nat := 1048576

def NRB_MINPITCH : Int := -39

def NRB_MAXPITCH : Int := 48

def NRB_MAXART : Nat := 61

def NRB_MAXRAMP : Nat := 16384

def NRB_VER_OK : Nat := 0

def NRB_VER_MINOR : Nat := 1

def NRB_VER_MAJOR : Nat := 2

def NRB_VER_ERROR : Nat := 3

/-- Upper bound accepted by nrb_readUint64: despite the macro's name this
is INT64_MAX, so raw values with the top bit set are rejected. -/
def NRB_MAXUINT64 : Nat := 9223372036854775807

/-- Upper bound accepted by nrb_readUint32: INT32_MAX. -/
def NRB_MAXUINT32 : Nat := 2147483647

def NRB_MAXUINT16 : Nat := 65535

def NRB_MINBIAS8 : Int := -128

def NRB_MAXBIAS8 : Int := 127

def NRB_BIAS8 : Int := 128

def NRB_SIGPRI : Nat := 1928196216

def NRB_SIGSEC : Nat := 778990178

def NRB_SECTALLOC_INIT : Nat := 16

def NRB_NOTEALLOC_INIT : Nat := 256

/-! ## Data model (NRB_NOTE, NRB_DATA) -/

/-- NRB_NOTE structure of nrb.h.  Field machine types in C: start and
release are int64_t, pitch int8_t, art uint8_t, ramp / sect / layer_i
uint16_t; the embedding uses Int / Nat with range side conditions stated
where they matter. -/
structure NRB_NOTE where
  mk ::
  start : Int
  release : Int
  pitch : Int
  art : Nat
  ramp : Nat
  sect : Nat
  layer_i : Nat
deriving Repr, DecidableEq

/-- NRB_DATA structure of nrb.c.  The C object stores the two tables as
pointer + count + capacity; here each table is the list of its used
elements (whose length is the count) together with the capacity
bookkeeping field. -/
structure NRB_DATA where
  mk ::
  pSect : List Int
  pNote : List NRB_NOTE
  sect_cap : Nat
  note_cap : Nat
deriving Repr, DecidableEq

/-- nrb_sections: number of sections (the used length of the section
table). -/
def nrb_sections (pd : NRB_DATA) : Nat := pd.pSect.length

/-- nrb_notes: number of notes. -/
def nrb_notes (pd : NRB_DATA) : Nat := pd.pNote.length

/-! ## Primitive codec: readers -/

/-- nrb_readByte: one byte from the stream; -1 (here none) on EOF.  A list
entry outside [0,255] corresponds to no real stream and is treated as a
read failure. -/
def nrb_readByte : List Nat → Option (Nat × List Nat)
  | [] => none
  | b :: r => if b ≤ 255 then some (b, r) else none

/-- Shared big-endian accumulation loop of nrb_read64 / nrb_read32 /
nrb_read16: read k bytes, shifting the accumulator left by 8 bits and
adding each byte. -/
def nrb_readBE : Nat → Nat → List Nat → Option (Nat × List Nat)
  | 0, acc, s => some (acc, s)
  | k + 1, acc, s =>
    match nrb_readByte s with
    | none => none
    | some (c, s') => nrb_readBE k (acc * 256 + c) s'

/-- nrb_read64: raw 64-bit big-endian read. -/
def nrb_read64 (s : List Nat) : Option (Nat × List Nat) := nrb_readBE 8 0 s

/-- nrb_read32: raw 32-bit big-endian read. -/
def nrb_read32 (s : List Nat) : Option (Nat × List Nat) := nrb_readBE 4 0 s

/-- nrb_read16: raw 16-bit big-endian read. -/
def nrb_read16 (s : List Nat) : Option (Nat × List Nat) := nrb_readBE 2 0 s

/-- nrb_readUint64: raw 64-bit read, then range check against
NRB_MAXUINT64 (INT64_MAX); failure returns -1 in C, none here.  The
successful value is stored into an int64_t, hence Int. -/
def nrb_readUint64 (s : List Nat) : Option (Int × List Nat) := do
  let (rv, s') ← nrb_read64 s
  if rv ≤ NRB_MAXUINT64 then pure ((rv : Int), s') else none

/-- nrb_readUint32: raw 32-bit read, then range check against
NRB_MAXUINT32 (INT32_MAX). -/
def nrb_readUint32 (s : List Nat) : Option (Nat × List Nat) := do
  let (rv, s') ← nrb_read32 s
  if rv ≤ NRB_MAXUINT32 then pure (rv, s') else none

/-- nrb_readUint16: raw 16-bit read, then range check against
NRB_MAXUINT16 (vacuous for real byte streams, as in C where rv has type
uint16_t). -/
def nrb_readUint16 (s : List Nat) : Option (Nat × List Nat) := do
  let (rv, s') ← nrb_read16 s
  if rv ≤ NRB_MAXUINT16 then pure (rv, s') else none

/-- nrb_readBias8: read one byte and subtract NRB_BIAS8, yielding a value
in [-128, 127]. -/
def nrb_readBias8 (s : List Nat) : Option (Int × List Nat) := do
  let (rv, s') ← nrb_readByte s
  pure ((rv : Int) - NRB_BIAS8, s')

/-! ## Primitive codec: writers -/

/-- Big-endian byte splitting shared by nrb_writeUint64 / 32 / 16: byte j
(most significant first) of a k-byte value is `v >> 8*(k-1-j) & 0xff`.
The mask on the most significant byte reflects the unsigned cast of the
C parameter type. -/
def nrb_beBytes : Nat → Nat → List Nat
  | 0, _ => []
  | k + 1, v => (v / 256 ^ k % 256) :: nrb_beBytes k v

/-- nrb_writeUint64: eight bytes, most significant first. -/
def nrb_writeUint64 (v : Nat) : List Nat := nrb_beBytes 8 v

/-- nrb_writeUint32: four bytes, most significant first. -/
def nrb_writeUint32 (v : Nat) : List Nat := nrb_beBytes 4 v

/-- nrb_writeUint16: two bytes, most significant first. -/
def nrb_writeUint16 (v : Nat) : List Nat := nrb_beBytes 2 v

/-- nrb_writeByte: writes one unsigned byte; a value outside [0,255] is a
fatal contract violation (abort), modelled by none. -/
def nrb_writeByte (c : Nat) : Option (List Nat) :=
  if c ≤ 255 then some [c] else none

/-- nrb_writeBias8: range-check v against [NRB_MINBIAS8, NRB_MAXBIAS8]
(abort on violation), then write the unsigned byte v + NRB_BIAS8. -/
def nrb_writeBias8 (v : Int) : Option (List Nat) :=
  if v < NRB_MINBIAS8 ∨ v > NRB_MAXBIAS8 then none
  else nrb_writeByte (v + NRB_BIAS8).toNat

/-- Unsigned 64-bit cast `(uint64_t) x` applied by nrb_serialize to the
int64_t fields before writing. -/
def toUint64 (x : Int) : Nat := (x % ((2 : Int) ^ 64)).toNat

/-! ## Format driver: parse -/

/-- Section-table loop body of nrb_parse for indices i ≥ 1: each entry is
read with nrb_readUint64 (failure, including a value above INT64_MAX,
aborts the parse) and must be at least the previous entry. -/
def readSectLoop : Nat → Int → List Nat → Option (List Int × List Nat)
  | 0, _, s => some ([], s)
  | k + 1, prev, s => do
    let (v, s') ← nrb_readUint64 s
    if v < prev then none
    else
      let (vs, s'') ← readSectLoop k v s'
      pure (v :: vs, s'')

/-- Section table read of nrb_parse: `count` entries; entry 0 must equal
zero, every later entry must be at least its predecessor. -/
def readSectTable (count : Nat) (s : List Nat) : Option (List Int × List Nat) :=
  match count with
  | 0 => some ([], s)
  | k + 1 => do
    let (v, s') ← nrb_readUint64 s
    if v ≠ 0 then none
    else
      let (vs, s'') ← readSectLoop k v s'
      pure (v :: vs, s'')

/-- Per-note read of nrb_parse, field order start, release, biased pitch,
articulation byte, ramp, sect, layer, with the validation checks of the
source in source order (the section-offset check comes after the layer
field is read). -/
def readNote (sects : List Int) (s : List Nat) : Option (NRB_NOTE × List Nat) := do
  let (start, s1) ← nrb_readUint64 s
  let (release, s2) ← nrb_readUint64 s1
  if release ≤ start then none
  else
    let (p, s3) ← nrb_readBias8 s2
    if p < NRB_MINPITCH ∨ p > NRB_MAXPITCH then none
    else
      let (a, s4) ← nrb_readByte s3
      if a % 64 > NRB_MAXART then none
      else
        let (rm, s5) ← nrb_readUint16 s4
        if rm > NRB_MAXRAMP then none
        else
          let (sc, s6) ← nrb_readUint16 s5
          if sc ≥ sects.length then none
          else
            let (ly, s7) ← nrb_readUint16 s6
            if start < sects.getD sc 0 then none
            else pure (⟨start, release, p, a, rm, sc, ly⟩, s7)

/-- Note-table loop of nrb_parse: `count` notes in sequence. -/
def readNotes : Nat → List Int → List Nat → Option (List NRB_NOTE × List Nat)
  | 0, _, s => some ([], s)
  | k + 1, sects, s => do
    let (n, s') ← readNote sects s
    let (ns, s'') ← readNotes k sects s'
    pure (n :: ns, s'')

/-- Reserved-field step of nrb_parse: four 32-bit values read with
nrb_readUint32 and discarded; any failure of nrb_readUint32 (EOF or a
value above INT32_MAX) fails the parse. -/
def readReserved (s : List Nat) : Option (List Nat) := do
  let (_, s1) ← nrb_readUint32 s
  let (_, s2) ← nrb_readUint32 s1
  let (_, s3) ← nrb_readUint32 s2
  let (_, s4) ← nrb_readUint32 s3
  pure s4

/-- Body of nrb_parse after the signatures and version bytes: section
count in [1, NRB_MAXSECT], note count in [1, NRB_MAXNOTE], the four
reserved fields, the section table, the note table.  The capacities of
the resulting object equal the counts.  The remaining stream is
returned alongside the document. -/
def parseBody (s : List Nat) : Option (NRB_DATA × List Nat) := do
  let (sc, s1) ← nrb_readUint16 s
  if sc < 1 ∨ sc > NRB_MAXSECT then none
  else
    let (nc, s2) ← nrb_readUint32 s1
    if nc < 1 ∨ nc > NRB_MAXNOTE then none
    else
      let s3 ← readReserved s2
      let (sects, s4) ← readSectTable sc s3
      let (notes, s5) ← readNotes nc sects s4
      pure (⟨sects, notes, sc, nc⟩, s5)

/-- Signature and version step of nrb_parse: two signature words (any
mismatch or read failure reports version status NRB_VER_ERROR, here a
none result), then the major and minor version bytes. -/
def parseSigVer (s : List Nat) : Option (Nat × Nat × List Nat) := do
  let (g1, s1) ← nrb_readUint32 s
  if g1 ≠ NRB_SIGPRI then none
  else
    let (g2, s2) ← nrb_readUint32 s1
    if g2 ≠ NRB_SIGSEC then none
    else
      let (vmaj, s3) ← nrb_readByte s2
      let (vmin, s4) ← nrb_readByte s3
      pure (vmaj, vmin, s4)

/-- nrb_parse with the read position made explicit: signatures and
version bytes (failure reports NRB_VER_ERROR), the major-version gate
(major other than 1 reports NRB_VER_MAJOR and fails), then the body
with status NRB_VER_OK for minor zero and NRB_VER_MINOR otherwise.  The
version status is reported in every outcome, as through pVer in C. -/
def nrb_parseFull (s : List Nat) : Option (NRB_DATA × List Nat) × Nat :=
  match parseSigVer s with
  | none => (none, NRB_VER_ERROR)
  | some (vmaj, vmin, s4) =>
    if vmaj ≠ 1 then (none, NRB_VER_MAJOR)
    else (parseBody s4, if vmin = 0 then NRB_VER_OK else NRB_VER_MINOR)

/-- nrb_parse: the document (or none) and the version status. -/
def nrb_parse (s : List Nat) : Option NRB_DATA × Nat :=
  ((nrb_parseFull s).1.map Prod.fst, (nrb_parseFull s).2)

/-! ## Document store operations -/

/-- nrb_alloc: empty document, one section at offset zero, initial
capacities NRB_SECTALLOC_INIT and NRB_NOTEALLOC_INIT. -/
def nrb_alloc : NRB_DATA := ⟨[0], [], NRB_SECTALLOC_INIT, NRB_NOTEALLOC_INIT⟩

/-- nrb_offset: starting offset of a section; out-of-range index is a
fatal contract violation (none). -/
def nrb_offset (pd : NRB_DATA) (sect_i : Nat) : Option Int := pd.pSect.get? sect_i

/-- nrb_get: copy of a note; out-of-range index is a fatal contract
violation (none). -/
def nrb_get (pd : NRB_DATA) (note_i : Nat) : Option NRB_NOTE := pd.pNote.get? note_i

/-- Validation applied by nrb_set and nrb_append to the incoming note, in
source order: start nonnegative, release strictly after start, pitch in
[NRB_MINPITCH, NRB_MAXPITCH], articulation index (art & 0x3f) at most
NRB_MAXART, ramp at most NRB_MAXRAMP, sect a defined section index, and
start at least the note's section offset. -/
def noteOk (pd : NRB_DATA) (n : NRB_NOTE) : Prop :=
  0 ≤ n.start ∧ n.start < n.release ∧
  NRB_MINPITCH ≤ n.pitch ∧ n.pitch ≤ NRB_MAXPITCH ∧
  n.art % 64 ≤ NRB_MAXART ∧ n.ramp ≤ NRB_MAXRAMP ∧
  n.sect < pd.pSect.length ∧ pd.pSect.getD n.sect 0 ≤ n.start

instance (pd : NRB_DATA) (n : NRB_NOTE) : Decidable (noteOk pd n) := by
  unfold noteOk; infer_instance

/-- nrb_set: overwrite the note at note_i; an out-of-range index or an
invalid note is a fatal contract violation (none). -/
def nrb_set (pd : NRB_DATA) (note_i : Nat) (n : NRB_NOTE) : Option NRB_DATA :=
  if note_i ≥ pd.pNote.length then none
  else if noteOk pd n then some ⟨pd.pSect, pd.pNote.set note_i n, pd.sect_cap, pd.note_cap⟩
  else none

/-- Capacity growth of nrb_sect / nrb_append: double, clamp below by the
initial allocation and above by the table ceiling. -/
def growCap (cap ini ceiling : Nat) : Nat := min (max (cap * 2) ini) ceiling

/-- nrb_sect: append a section.  A negative offset, an empty section
table, or an offset below the last section's offset is a fatal contract
violation (none); a full table returns status zero (false) with the
document unchanged; otherwise the offset is appended (growing capacity
if needed) and the status is nonzero (true). -/
def nrb_sect (pd : NRB_DATA) (offset : Int) : Option (NRB_DATA × Bool) :=
  if offset < 0 then none
  else
    match pd.pSect.getLast? with
    | none => none
    | some last =>
      if offset < last then none
      else if pd.pSect.length < NRB_MAXSECT then
        some (⟨pd.pSect ++ [offset], pd.pNote,
               if pd.pSect.length ≥ pd.sect_cap then
                 growCap pd.sect_cap NRB_SECTALLOC_INIT NRB_MAXSECT
               else pd.sect_cap,
               pd.note_cap⟩, true)
      else some (pd, false)

/-- nrb_append: append a note.  An invalid note is a fatal contract
violation (none); a full note table returns status zero (false) with the
document unchanged; otherwise the note is appended (growing capacity if
needed) and the status is nonzero (true). -/
def nrb_append (pd : NRB_DATA) (n : NRB_NOTE) : Option (NRB_DATA × Bool) :=
  if noteOk pd n then
    if pd.pNote.length < NRB_MAXNOTE then
      some (⟨pd.pSect, pd.pNote ++ [n],
             pd.sect_cap,
             if pd.pNote.length ≥ pd.note_cap then
               growCap pd.note_cap NRB_NOTEALLOC_INIT NRB_MAXNOTE
             else pd.note_cap⟩, true)
    else some (pd, false)
  else none

/-- nrb_cmp: qsort comparator comparing two notes by starting time. -/
def nrb_cmp (a b : NRB_NOTE) : Int :=
  if a.start < b.start then -1
  else if a.start > b.start then 1
  else 0

/-- nrb_sort: sort the note table ascending by starting time with the
nrb_cmp comparator (qsort in C; the comparator constrains only the start
order, tie order is unspecified — modelled with mergeSort). -/
def nrb_sort (pd : NRB_DATA) : NRB_DATA :=
  if pd.pNote.length > 1 then
    ⟨pd.pSect, pd.pNote.mergeSort (fun a b => nrb_cmp a b ≤ 0), pd.sect_cap, pd.note_cap⟩
  else pd

/-! ## Format driver: serialize -/

/-- Per-note output of nrb_serialize: start, release, biased pitch,
articulation byte, ramp, sect, layer.  The two single-byte writers can
abort (none) on values outside their range, which the C field types make
unreachable. -/
def serNote (n : NRB_NOTE) : Option (List Nat) := do
  let pb ← nrb_writeBias8 n.pitch
  let ab ← nrb_writeByte n.art
  pure (nrb_writeUint64 (toUint64 n.start) ++ nrb_writeUint64 (toUint64 n.release) ++
        pb ++ ab ++ nrb_writeUint16 n.ramp ++ nrb_writeUint16 n.sect ++
        nrb_writeUint16 n.layer_i)

/-- Note-table loop of nrb_serialize. -/
def serNotes : List NRB_NOTE → Option (List Nat)
  | [] => some []
  | n :: rest => do
    let b ← serNote n
    let bs ← serNotes rest
    pure (b ++ bs)

/-- Section table output of nrb_serialize: each offset cast to uint64_t
and written big-endian. -/
def serSects : List Int → List Nat
  | [] => []
  | si :: rest => nrb_writeUint64 (toUint64 si) ++ serSects rest

/-- nrb_serialize: with no notes, status zero and nothing written;
otherwise the signatures, version 1.0, the counts, four zero reserved
fields, the section table and the note table, with status nonzero.  The
outer none models an abort inside a write. -/
def nrb_serialize (pd : NRB_DATA) : Option (Bool × List Nat) :=
  if pd.pNote.length > 0 then do
    let vh ← nrb_writeByte 1
    let vl ← nrb_writeByte 0
    let nb ← serNotes pd.pNote
    pure (true,
      nrb_writeUint32 NRB_SIGPRI ++ nrb_writeUint32 NRB_SIGSEC ++ vh ++ vl ++
      nrb_writeUint16 pd.pSect.length ++ nrb_writeUint32 pd.pNote.length ++
      nrb_writeUint32 0 ++ nrb_writeUint32 0 ++ nrb_writeUint32 0 ++ nrb_writeUint32 0 ++
      serSects pd.pSect ++ nb)
  else some (false, [])

/-! ## Iterated operations and validity predicates -/

/-- Sequence of nrb_sect calls; the boolean result is the conjunction of
the statuses. -/
def nrb_sectAll (pd : NRB_DATA) : List Int → Option (NRB_DATA × Bool)
  | [] => some (pd, true)
  | o :: rest =>
    match nrb_sect pd o with
    | none => none
    | some (pd', st) =>
      match nrb_sectAll pd' rest with
      | none => none
      | some (pd'', st') => some (pd'', st && st')

/-- Sequence of nrb_append calls; the boolean result is the conjunction
of the statuses. -/
def nrb_appendAll (pd : NRB_DATA) : List NRB_NOTE → Option (NRB_DATA × Bool)
  | [] => some (pd, true)
  | n :: rest =>
    match nrb_append pd n with
    | none => none
    | some (pd', st) =>
      match nrb_appendAll pd' rest with
      | none => none
      | some (pd'', st') => some (pd'', st && st')

/-- Validity of one note against a section table, as guaranteed by the C
machine types together with the validator rules: the int64 fields are
nonnegative with release at most INT64_MAX, pitch within the biased
range is further confined to [NRB_MINPITCH, NRB_MAXPITCH], art is one
byte with index bits at most NRB_MAXART, ramp at most NRB_MAXRAMP, sect
a defined section index, layer one uint16, and start at least the
note's section offset. -/
def noteValid (sects : List Int) (n : NRB_NOTE) : Prop :=
  0 ≤ n.start ∧ n.start < n.release ∧ n.release ≤ (NRB_MAXUINT64 : Int) ∧
  NRB_MINPITCH ≤ n.pitch ∧ n.pitch ≤ NRB_MAXPITCH ∧
  n.art ≤ 255 ∧ n.art % 64 ≤ NRB_MAXART ∧ n.ramp ≤ NRB_MAXRAMP ∧
  n.sect < sects.length ∧ n.layer_i ≤ 65535 ∧
  sects.getD n.sect 0 ≤ n.start

instance (sects : List Int) (n : NRB_NOTE) : Decidable (noteValid sects n) := by
  unfold noteValid
  infer_instance

/-- Validity of a section table: between 1 and NRB_MAXSECT entries, first
entry zero, non-decreasing, every entry a nonnegative int64. -/
def sectsValid (l : List Int) : Prop :=
  1 ≤ l.length ∧ l.length ≤ NRB_MAXSECT ∧ l.headD 1 = 0 ∧
  l.Chain' (· ≤ ·) ∧ ∀ x ∈ l, 0 ≤ x ∧ x ≤ (NRB_MAXUINT64 : Int)

/-- Validity of a whole document: valid section table, note count within
the ceiling, every note valid. -/
def docValid (pd : NRB_DATA) : Prop :=
  sectsValid pd.pSect ∧ pd.pNote.length ≤ NRB_MAXNOTE ∧
  ∀ n ∈ pd.pNote, noteValid pd.pSect n

/-- Reference integrity: every note points at a defined section and does
not start before that section's offset. -/
def refIntegrity (pd : NRB_DATA) : Prop :=
  ∀ n ∈ pd.pNote, n.sect < pd.pSect.length ∧ pd.pSect.getD n.sect 0 ≤ n.start

/-- Documents reachable from nrb_alloc by successful (non-aborting)
nrb_sect, nrb_append, nrb_set and nrb_sort calls. -/
inductive Reachable : NRB_DATA → Prop
  | alloc : Reachable nrb_alloc
  | sect {pd pd' : NRB_DATA} {off : Int} {st : Bool} :
      Reachable pd → nrb_sect pd off = some (pd', st) → Reachable pd'
  | append {pd pd' : NRB_DATA} {n : NRB_NOTE} {st : Bool} :
      Reachable pd → nrb_append pd n = some (pd', st) → Reachable pd'
  | set {pd pd' : NRB_DATA} {i : Nat} {n : NRB_NOTE} :
      Reachable pd → nrb_set pd i n = some pd' → Reachable pd'
  | sort {pd : NRB_DATA} : Reachable pd → Reachable (nrb_sort pd)

/-- Concrete scenario B stream of the spec: signatures, major version 1,
minor version 1, one section at offset zero, one note with start 0,
release 1000, pitch 0, articulation 0, ramp 0, sect 0, layer field 0. -/
def streamScenarioB : List Nat :=
  nrb_writeUint32 NRB_SIGPRI ++ nrb_writeUint32 NRB_SIGSEC ++ [1, 1] ++
  nrb_writeUint16 1 ++ nrb_writeUint32 1 ++
  nrb_writeUint32 0 ++ nrb_writeUint32 0 ++ nrb_writeUint32 0 ++ nrb_writeUint32 0 ++
  nrb_writeUint64 0 ++
  nrb_writeUint64 0 ++ nrb_writeUint64 1000 ++ [128] ++ [0] ++
  nrb_writeUint16 0 ++ nrb_writeUint16 0 ++ nrb_writeUint16 0

/-- Byte encoding of a section table of raw unsigned 64-bit values, one
nrb_writeUint64 image per entry. -/
def sectTableBytes : List Nat → List Nat
  | [] => []
  | v :: vs => nrb_writeUint64 v ++ sectTableBytes vs

/-- First 16 bytes (signatures, version 1.1, section count 1, note count
1) of the concrete scenario-B stream. -/
def streamHdr16 : List Nat :=
  nrb_writeUint32 NRB_SIGPRI ++ nrb_writeUint32 NRB_SIGSEC ++ [1, 1] ++
  nrb_writeUint16 1 ++ nrb_writeUint32 1

/-- Bytes of the scenario-B stream after the reserved region: one section
at offset 0 and one note. -/
def streamTail24 : List Nat :=
  nrb_writeUint64 0 ++
  nrb_writeUint64 0 ++ nrb_writeUint64 1000 ++ [128] ++ [0] ++
  nrb_writeUint16 0 ++ nrb_writeUint16 0 ++ nrb_writeUint16 0

/-- A stream with a valid header, two sections at offsets 0 and 2^63 (an
ordering-respecting unsigned pair), and one note. -/
def streamBigSect : List Nat :=
  nrb_writeUint32 NRB_SIGPRI ++ nrb_writeUint32 NRB_SIGSEC ++ [1, 0] ++
  nrb_writeUint16 2 ++ nrb_writeUint32 1 ++
  nrb_writeUint32 0 ++ nrb_writeUint32 0 ++ nrb_writeUint32 0 ++ nrb_writeUint32 0 ++
  nrb_writeUint64 0 ++ nrb_writeUint64 (2 ^ 63) ++
  nrb_writeUint64 0 ++ nrb_writeUint64 1000 ++ [128] ++ [0] ++
  nrb_writeUint16 0 ++ nrb_writeUint16 0 ++ nrb_writeUint16 0

/-- A valid note used as a concrete witness input. -/
def noteW : NRB_NOTE := ⟨0, 5, 0, 0, 0, 0, 0⟩

/-- A document whose note table is at the NRB_MAXNOTE ceiling. -/
def pdNFull : NRB_DATA := ⟨[0], List.replicate NRB_MAXNOTE noteW, 1, NRB_MAXNOTE⟩

/-- A document whose section table is at the NRB_MAXSECT ceiling. -/
def pdSFull : NRB_DATA := ⟨List.replicate 65535 (0 : Int), [], 65535, 256⟩

/-- Byte image of one note as written by nrb_serialize. -/
def noteBytes (n : NRB_NOTE) : List Nat :=
  nrb_writeUint64 (toUint64 n.start) ++ nrb_writeUint64 (toUint64 n.release) ++
  [(n.pitch + NRB_BIAS8).toNat] ++ [n.art] ++ nrb_writeUint16 n.ramp ++
  nrb_writeUint16 n.sect ++ nrb_writeUint16 n.layer_i

/-- Byte image of a note table as written by nrb_serialize. -/
def notesBytes : List NRB_NOTE → List Nat
  | [] => []
  | n :: ns => noteBytes n ++ notesBytes ns

/-! ## Helper lemmas -/

/-- Reduction of an Option bind over a successful read. -/
theorem obind_some {α β : Type} (a : α) (f : α → Option β) : (some a >>= f) = f a := rfl

/-- Reduction of an Option bind over a failed read. -/
theorem obind_none {α β : Type} (f : α → Option β) : ((none : Option α) >>= f) = none := rfl

theorem nrb_readByte_append {s r : List Nat} {c : Nat} (t : List Nat)
    (h : nrb_readByte s = some (c, r)) : nrb_readByte (s ++ t) = some (c, r ++ t) := by
  cases s with
  | nil => simp [nrb_readByte] at h
  | cons b s' =>
    unfold nrb_readByte at h ⊢
    by_cases hb : b ≤ 255
    · simp [hb] at h ⊢
      exact ⟨h.1, by rw [h.2]⟩
    · simp [hb] at h

theorem nrb_readBE_append (k : Nat) {acc : Nat} {s r : List Nat} {v : Nat} (t : List Nat)
    (h : nrb_readBE k acc s = some (v, r)) : nrb_readBE k acc (s ++ t) = some (v, r ++ t) := by
  induction k generalizing acc s with
  | zero =>
    unfold nrb_readBE at h ⊢
    simp at h
    simp [h.1, h.2]
  | succ k ih =>
    unfold nrb_readBE at h ⊢
    cases hb : nrb_readByte s with
    | none => rw [hb] at h; exact absurd h (by simp)
    | some cs =>
      rw [hb] at h
      rw [nrb_readByte_append t hb]
      exact ih h

theorem nrb_readUint64_append {s r : List Nat} {v : Int} (t : List Nat)
    (h : nrb_readUint64 s = some (v, r)) : nrb_readUint64 (s ++ t) = some (v, r ++ t) := by
  unfold nrb_readUint64 nrb_read64 at h ⊢
  cases h1 : nrb_readBE 8 0 s with
  | none => simp [h1] at h
  | some vr =>
    obtain ⟨v0, s0⟩ := vr
    simp [h1] at h
    obtain ⟨hv, h2, h3⟩ := h
    subst h2
    subst h3
    simp [nrb_readBE_append 8 t h1, hv]

theorem nrb_readUint32_append {s r : List Nat} {v : Nat} (t : List Nat)
    (h : nrb_readUint32 s = some (v, r)) : nrb_readUint32 (s ++ t) = some (v, r ++ t) := by
  unfold nrb_readUint32 nrb_read32 at h ⊢
  cases h1 : nrb_readBE 4 0 s with
  | none => simp [h1] at h
  | some vr =>
    obtain ⟨v0, s0⟩ := vr
    simp [h1] at h
    obtain ⟨hv, h2, h3⟩ := h
    subst h2
    subst h3
    simp [nrb_readBE_append 4 t h1, hv]

theorem nrb_readUint16_append {s r : List Nat} {v : Nat} (t : List Nat)
    (h : nrb_readUint16 s = some (v, r)) : nrb_readUint16 (s ++ t) = some (v, r ++ t) := by
  unfold nrb_readUint16 nrb_read16 at h ⊢
  cases h1 : nrb_readBE 2 0 s with
  | none => simp [h1] at h
  | some vr =>
    obtain ⟨v0, s0⟩ := vr
    simp [h1] at h
    obtain ⟨hv, h2, h3⟩ := h
    subst h2
    subst h3
    simp [nrb_readBE_append 2 t h1, hv]

theorem nrb_readBias8_append {s r : List Nat} {v : Int} (t : List Nat)
    (h : nrb_readBias8 s = some (v, r)) : nrb_readBias8 (s ++ t) = some (v, r ++ t) := by
  unfold nrb_readBias8 at h ⊢
  cases h1 : nrb_readByte s with
  | none => simp [h1] at h
  | some cs =>
    obtain ⟨c0, s0⟩ := cs
    simp [h1] at h
    obtain ⟨h2, h3⟩ := h
    subst h3
    simp [nrb_readByte_append t h1, h2]

theorem readSectLoop_append (k : Nat) {prev : Int} {s r : List Nat} {vs : List Int}
    (t : List Nat) (h : readSectLoop k prev s = some (vs, r)) :
    readSectLoop k prev (s ++ t) = some (vs, r ++ t) := by
  induction k generalizing prev s vs r with
  | zero =>
    unfold readSectLoop at h ⊢
    simp at h
    simp [h.1, h.2]
  | succ k ih =>
    simp only [readSectLoop] at h ⊢
    cases h1 : nrb_readUint64 s with
    | none => simp [h1] at h
    | some vr =>
      obtain ⟨v, s'⟩ := vr
      simp [h1] at h
      obtain ⟨hpv, h⟩ := h
      cases h2 : readSectLoop k v s' with
      | none => simp [h2] at h
      | some lr =>
        obtain ⟨l, s''⟩ := lr
        simp [h2] at h
        obtain ⟨h3, h4⟩ := h
        subst h4
        subst h3
        simp [nrb_readUint64_append t h1, ih h2, hpv]

theorem readSectTable_append {count : Nat} {s r : List Nat} {vs : List Int}
    (t : List Nat) (h : readSectTable count s = some (vs, r)) :
    readSectTable count (s ++ t) = some (vs, r ++ t) := by
  cases count with
  | zero =>
    unfold readSectTable at h ⊢
    simp at h
    simp [h.1, h.2]
  | succ k =>
    simp only [readSectTable] at h ⊢
    cases h1 : nrb_readUint64 s with
    | none => simp [h1] at h
    | some vr =>
      obtain ⟨v, s'⟩ := vr
      simp [h1] at h
      obtain ⟨hv0, h⟩ := h
      subst hv0
      cases h2 : readSectLoop k 0 s' with
      | none => simp [h2] at h
      | some lr =>
        obtain ⟨l, s''⟩ := lr
        simp [h2] at h
        obtain ⟨h3, h4⟩ := h
        subst h4
        subst h3
        simp [nrb_readUint64_append t h1, readSectLoop_append k t h2]


theorem readNote_append {sects : List Int} {s r : List Nat} {n : NRB_NOTE}
    (t : List Nat) (h : readNote sects s = some (n, r)) :
    readNote sects (s ++ t) = some (n, r ++ t) := by
  unfold readNote at h ⊢
  cases h1 : nrb_readUint64 s with
  | none => rw [h1, obind_none] at h; exact absurd h (by simp)
  | some vr1 =>
    obtain ⟨start, s1⟩ := vr1
    rw [h1, obind_some] at h
    rw [nrb_readUint64_append t h1, obind_some]
    dsimp only at h ⊢
    cases h2 : nrb_readUint64 s1 with
    | none => rw [h2, obind_none] at h; exact absurd h (by simp)
    | some vr2 =>
      obtain ⟨release, s2⟩ := vr2
      rw [h2, obind_some] at h
      rw [nrb_readUint64_append t h2, obind_some]
      dsimp only at h ⊢
      by_cases hc1 : release ≤ start
      · rw [if_pos hc1] at h; exact absurd h (by simp)
      · rw [if_neg hc1] at h ⊢
        cases h3 : nrb_readBias8 s2 with
        | none => rw [h3, obind_none] at h; exact absurd h (by simp)
        | some vr3 =>
          obtain ⟨p, s3⟩ := vr3
          rw [h3, obind_some] at h
          rw [nrb_readBias8_append t h3, obind_some]
          dsimp only at h ⊢
          by_cases hc2 : p < NRB_MINPITCH ∨ p > NRB_MAXPITCH
          · rw [if_pos hc2] at h; exact absurd h (by simp)
          · rw [if_neg hc2] at h ⊢
            cases h4 : nrb_readByte s3 with
            | none => rw [h4, obind_none] at h; exact absurd h (by simp)
            | some vr4 =>
              obtain ⟨a, s4⟩ := vr4
              rw [h4, obind_some] at h
              rw [nrb_readByte_append t h4, obind_some]
              dsimp only at h ⊢
              by_cases hc3 : a % 64 > NRB_MAXART
              · rw [if_pos hc3] at h; exact absurd h (by simp)
              · rw [if_neg hc3] at h ⊢
                cases h5 : nrb_readUint16 s4 with
                | none => rw [h5, obind_none] at h; exact absurd h (by simp)
                | some vr5 =>
                  obtain ⟨rm, s5⟩ := vr5
                  rw [h5, obind_some] at h
                  rw [nrb_readUint16_append t h5, obind_some]
                  dsimp only at h ⊢
                  by_cases hc4 : rm > NRB_MAXRAMP
                  · rw [if_pos hc4] at h; exact absurd h (by simp)
                  · rw [if_neg hc4] at h ⊢
                    cases h6 : nrb_readUint16 s5 with
                    | none => rw [h6, obind_none] at h; exact absurd h (by simp)
                    | some vr6 =>
                      obtain ⟨sc, s6⟩ := vr6
                      rw [h6, obind_some] at h
                      rw [nrb_readUint16_append t h6, obind_some]
                      dsimp only at h ⊢
                      by_cases hc5 : sc ≥ sects.length
                      · rw [if_pos hc5] at h; exact absurd h (by simp)
                      · rw [if_neg hc5] at h ⊢
                        cases h7 : nrb_readUint16 s6 with
                        | none => rw [h7, obind_none] at h; exact absurd h (by simp)
                        | some vr7 =>
                          obtain ⟨ly, s7⟩ := vr7
                          rw [h7, obind_some] at h
                          rw [nrb_readUint16_append t h7, obind_some]
                          dsimp only [Option.pure_def] at h ⊢
                          by_cases hc6 : start < sects.getD sc 0
                          · rw [if_pos hc6] at h; exact absurd h (by simp)
                          · rw [if_neg hc6] at h ⊢
                            rw [Option.some.injEq, Prod.mk.injEq] at h
                            obtain ⟨h8, h9⟩ := h
                            subst h9
                            rw [h8]

theorem readNotes_append (k : Nat) {sects : List Int} {s r : List Nat}
    {ns : List NRB_NOTE} (t : List Nat) (h : readNotes k sects s = some (ns, r)) :
    readNotes k sects (s ++ t) = some (ns, r ++ t) := by
  induction k generalizing s ns r with
  | zero =>
    unfold readNotes at h ⊢
    rw [Option.some.injEq, Prod.mk.injEq] at h
    obtain ⟨h1, h2⟩ := h
    subst h2
    rw [h1]
  | succ k ih =>
    unfold readNotes at h ⊢
    cases h1 : readNote sects s with
    | none => rw [h1, obind_none] at h; exact absurd h (by simp)
    | some nr =>
      obtain ⟨n, s'⟩ := nr
      rw [h1, obind_some] at h
      rw [readNote_append t h1, obind_some]
      dsimp only at h ⊢
      cases h2 : readNotes k sects s' with
      | none => rw [h2, obind_none] at h; exact absurd h (by simp)
      | some lr =>
        obtain ⟨l, s''⟩ := lr
        rw [h2, obind_some] at h
        rw [ih h2, obind_some]
        dsimp only [Option.pure_def] at h ⊢
        rw [Option.some.injEq, Prod.mk.injEq] at h
        obtain ⟨h3, h4⟩ := h
        subst h4
        rw [h3]

theorem readReserved_append {s r : List Nat} (t : List Nat)
    (h : readReserved s = some r) : readReserved (s ++ t) = some (r ++ t) := by
  unfold readReserved at h ⊢
  cases h1 : nrb_readUint32 s with
  | none => rw [h1, obind_none] at h; exact absurd h (by simp)
  | some vr1 =>
    obtain ⟨v1, s1⟩ := vr1
    rw [h1, obind_some] at h
    rw [nrb_readUint32_append t h1, obind_some]
    dsimp only at h ⊢
    cases h2 : nrb_readUint32 s1 with
    | none => rw [h2, obind_none] at h; exact absurd h (by simp)
    | some vr2 =>
      obtain ⟨v2, s2⟩ := vr2
      rw [h2, obind_some] at h
      rw [nrb_readUint32_append t h2, obind_some]
      dsimp only at h ⊢
      cases h3 : nrb_readUint32 s2 with
      | none => rw [h3, obind_none] at h; exact absurd h (by simp)
      | some vr3 =>
        obtain ⟨v3, s3⟩ := vr3
        rw [h3, obind_some] at h
        rw [nrb_readUint32_append t h3, obind_some]
        dsimp only at h ⊢
        cases h4 : nrb_readUint32 s3 with
        | none => rw [h4, obind_none] at h; exact absurd h (by simp)
        | some vr4 =>
          obtain ⟨v4, s4⟩ := vr4
          rw [h4, obind_some] at h
          rw [nrb_readUint32_append t h4, obind_some]
          dsimp only [Option.pure_def] at h ⊢
          rw [Option.some.injEq] at h
          rw [h]

theorem parseBody_append {s r : List Nat} {pd : NRB_DATA} (t : List Nat)
    (h : parseBody s = some (pd, r)) : parseBody (s ++ t) = some (pd, r ++ t) := by
  unfold parseBody at h ⊢
  cases h1 : nrb_readUint16 s with
  | none => rw [h1, obind_none] at h; exact absurd h (by simp)
  | some vr1 =>
    obtain ⟨sc, s1⟩ := vr1
    rw [h1, obind_some] at h
    rw [nrb_readUint16_append t h1, obind_some]
    dsimp only at h ⊢
    by_cases hc1 : sc < 1 ∨ sc > NRB_MAXSECT
    · rw [if_pos hc1] at h; exact absurd h (by simp)
    · rw [if_neg hc1] at h ⊢
      cases h2 : nrb_readUint32 s1 with
      | none => rw [h2, obind_none] at h; exact absurd h (by simp)
      | some vr2 =>
        obtain ⟨nc, s2⟩ := vr2
        rw [h2, obind_some] at h
        rw [nrb_readUint32_append t h2, obind_some]
        dsimp only at h ⊢
        by_cases hc2 : nc < 1 ∨ nc > NRB_MAXNOTE
        · rw [if_pos hc2] at h; exact absurd h (by simp)
        · rw [if_neg hc2] at h ⊢
          cases h3 : readReserved s2 with
          | none => rw [h3, obind_none] at h; exact absurd h (by simp)
          | some s3 =>
            rw [h3, obind_some] at h
            rw [readReserved_append t h3, obind_some]
            cases h4 : readSectTable sc s3 with
            | none => rw [h4, obind_none] at h; exact absurd h (by simp)
            | some slr =>
              obtain ⟨sects, s4⟩ := slr
              rw [h4, obind_some] at h
              rw [readSectTable_append t h4, obind_some]
              dsimp only at h ⊢
              cases h5 : readNotes nc sects s4 with
              | none => rw [h5, obind_none] at h; exact absurd h (by simp)
              | some nlr =>
                obtain ⟨notes, s5⟩ := nlr
                rw [h5, obind_some] at h
                rw [readNotes_append nc t h5, obind_some]
                dsimp only [Option.pure_def] at h ⊢
                rw [Option.some.injEq, Prod.mk.injEq] at h
                obtain ⟨h6, h7⟩ := h
                subst h7
                rw [h6]

theorem parseSigVer_append {s r : List Nat} {vmaj vmin : Nat} (t : List Nat)
    (h : parseSigVer s = some (vmaj, vmin, r)) :
    parseSigVer (s ++ t) = some (vmaj, vmin, r ++ t) := by
  unfold parseSigVer at h ⊢
  cases h1 : nrb_readUint32 s with
  | none => rw [h1, obind_none] at h; exact absurd h (by simp)
  | some vr1 =>
    obtain ⟨g1, s1⟩ := vr1
    rw [h1, obind_some] at h
    rw [nrb_readUint32_append t h1, obind_some]
    dsimp only at h ⊢
    by_cases hg1 : g1 ≠ NRB_SIGPRI
    · rw [if_pos hg1] at h; exact absurd h (by simp)
    · rw [if_neg hg1] at h ⊢
      cases h2 : nrb_readUint32 s1 with
      | none => rw [h2, obind_none] at h; exact absurd h (by simp)
      | some vr2 =>
        obtain ⟨g2, s2⟩ := vr2
        rw [h2, obind_some] at h
        rw [nrb_readUint32_append t h2, obind_some]
        dsimp only at h ⊢
        by_cases hg2 : g2 ≠ NRB_SIGSEC
        · rw [if_pos hg2] at h; exact absurd h (by simp)
        · rw [if_neg hg2] at h ⊢
          cases h3 : nrb_readByte s2 with
          | none => rw [h3, obind_none] at h; exact absurd h (by simp)
          | some vr3 =>
            obtain ⟨vj, s3⟩ := vr3
            rw [h3, obind_some] at h
            rw [nrb_readByte_append t h3, obind_some]
            dsimp only at h ⊢
            cases h4 : nrb_readByte s3 with
            | none => rw [h4, obind_none] at h; exact absurd h (by simp)
            | some vr4 =>
              obtain ⟨vn, s4⟩ := vr4
              rw [h4, obind_some] at h
              rw [nrb_readByte_append t h4, obind_some]
              dsimp only [Option.pure_def] at h ⊢
              rw [Option.some.injEq, Prod.mk.injEq, Prod.mk.injEq] at h
              obtain ⟨h5, h6, h7⟩ := h
              subst h7
              rw [h5, h6]

theorem nrb_parseFull_append {s r : List Nat} {pd : NRB_DATA} {ver : Nat} (t : List Nat)
    (h : nrb_parseFull s = (some (pd, r), ver)) :
    nrb_parseFull (s ++ t) = (some (pd, r ++ t), ver) := by
  unfold nrb_parseFull at h ⊢
  cases h1 : parseSigVer s with
  | none => rw [h1] at h; exact absurd h (by simp)
  | some vvr =>
    obtain ⟨vmaj, vmin, s4⟩ := vvr
    rw [h1] at h
    rw [parseSigVer_append t h1]
    dsimp only at h ⊢
    by_cases hmaj : vmaj ≠ 1
    · rw [if_pos hmaj] at h
      exact absurd (congrArg Prod.fst h) (by simp)
    · rw [if_neg hmaj] at h ⊢
      have hb : parseBody s4 = some (pd, r) := by
        have := congrArg Prod.fst h
        simpa using this
      have hv : (if vmin = 0 then NRB_VER_OK else NRB_VER_MINOR) = ver := by
        have := congrArg Prod.snd h
        simpa using this
      rw [parseBody_append t hb, hv]

theorem nrb_parse_trailing (s t : List Nat) (pd : NRB_DATA) (v : Nat)
    (h : nrb_parse s = (some pd, v)) : nrb_parse (s ++ t) = (some pd, v) := by
  unfold nrb_parse at h ⊢
  have h1 : (nrb_parseFull s).1.map Prod.fst = some pd := congrArg Prod.fst h
  have h2 : (nrb_parseFull s).2 = v := congrArg Prod.snd h
  cases hfull : (nrb_parseFull s).1 with
  | none => rw [hfull] at h1; exact absurd h1 (by simp)
  | some pr =>
    obtain ⟨pd', r⟩ := pr
    rw [hfull] at h1
    simp at h1
    have hful2 : nrb_parseFull s = (some (pd', r), v) := by
      rw [← h2, ← hfull]
    rw [nrb_parseFull_append t hful2]
    simp [h1]

theorem nrb_parse_trailing_witness :
    nrb_parse streamScenarioB =
      (some ⟨[0], [⟨0, 1000, 0, 0, 0, 0, 0⟩], 1, 1⟩, NRB_VER_MINOR) ∧
    nrb_parse (streamScenarioB ++ [7, 7, 7]) =
      (some ⟨[0], [⟨0, 1000, 0, 0, 0, 0, 0⟩], 1, 1⟩, NRB_VER_MINOR) :=
  ⟨by decide, nrb_parse_trailing streamScenarioB [7, 7, 7] _ _ (by decide)⟩

/-- Claim C10: trailing data is ignored.  Whenever nrb_parse succeeds on a
byte stream, appending arbitrary extra bytes after it leaves the parsed
document and the reported version status unchanged: the parse reads only
the header, the section table and the note table. -/
theorem nrb_parse_trailing_ignored (s t : List Nat) (pd : NRB_DATA) (v : Nat)
    (h : nrb_parse s = (some pd, v)) : nrb_parse (s ++ t) = (some pd, v) :=
  nrb_parse_trailing s t pd v h

/-- Witness for C10 at the concrete scenario-B stream with three trailing
bytes. -/
theorem nrb_parse_trailing_ignored_witness :
    nrb_parse streamScenarioB =
      (some ⟨[0], [⟨0, 1000, 0, 0, 0, 0, 0⟩], 1, 1⟩, NRB_VER_MINOR) ∧
    nrb_parse (streamScenarioB ++ [7, 7, 7]) =
      (some ⟨[0], [⟨0, 1000, 0, 0, 0, 0, 0⟩], 1, 1⟩, NRB_VER_MINOR) :=
  ⟨by decide, nrb_parse_trailing_ignored streamScenarioB [7, 7, 7] _ _ (by decide)⟩

/-- Claim C7: a stream with correct signatures, major version 1, minor
version 1, one section at offset 0 and one note (start 0, release 1000,
pitch 0, articulation 0, ramp 0, sect 0, layer field 0) parses
successfully into a document with one note, with version status
NRB_VER_MINOR (minor version unsupported). -/
theorem nrb_scenarioB :
    nrb_parse streamScenarioB =
      (some ⟨[0], [⟨0, 1000, 0, 0, 0, 0, 0⟩], 1, 1⟩, NRB_VER_MINOR) ∧
    nrb_notes ⟨[0], [⟨0, 1000, 0, 0, 0, 0, 0⟩], 1, 1⟩ = 1 := by decide

/-- Claim C9: calling nrb_append with a note whose release is not after
its start is a fatal contract violation: the validation aborts (none)
before any mutation, so no document with an altered note count can
result. -/
theorem nrb_append_release_contract (pd : NRB_DATA) (n : NRB_NOTE)
    (h : n.release ≤ n.start) : nrb_append pd n = none := by
  unfold nrb_append
  rw [if_neg]
  intro hok
  exact absurd hok.2.1 (not_lt.mpr h)

/-- Witness for C9 at a concrete zero-duration note. -/
theorem nrb_append_release_contract_witness :
    (NRB_NOTE.mk 0 0 0 0 0 0 0).release ≤ (NRB_NOTE.mk 0 0 0 0 0 0 0).start ∧
    nrb_append nrb_alloc (NRB_NOTE.mk 0 0 0 0 0 0 0) = none :=
  ⟨by decide, nrb_append_release_contract nrb_alloc _ (by decide)⟩

/-- Claim C6: bias encoding symmetry.  For every v in [-128, 127] the
biased writer stores the byte v + 128 and the biased reader recovers
exactly v from it. -/
theorem nrb_bias8_roundtrip (v : Int) (r : List Nat)
    (h1 : NRB_MINBIAS8 ≤ v) (h2 : v ≤ NRB_MAXBIAS8) :
    nrb_writeBias8 v = some [(v + NRB_BIAS8).toNat] ∧
    nrb_readBias8 ([(v + NRB_BIAS8).toNat] ++ r) = some (v, r) := by
  unfold NRB_MINBIAS8 at h1
  unfold NRB_MAXBIAS8 at h2
  have hge : (0 : Int) ≤ v + NRB_BIAS8 := by unfold NRB_BIAS8; omega
  have hb : ((v + NRB_BIAS8).toNat : Int) = v + NRB_BIAS8 := Int.toNat_of_nonneg hge
  have hle : (v + NRB_BIAS8).toNat ≤ 255 := by
    unfold NRB_BIAS8 at hb ⊢; omega
  constructor
  · unfold nrb_writeBias8 nrb_writeByte
    rw [if_neg (by unfold NRB_MINBIAS8 NRB_MAXBIAS8; omega), if_pos hle]
  · unfold nrb_readBias8 nrb_readByte
    simp only [List.cons_append, if_pos hle]
    rw [obind_some]
    dsimp only [Option.pure_def]
    rw [hb]
    simp [NRB_BIAS8]

/-- Witness for C6 at v = -5. -/
theorem nrb_bias8_roundtrip_witness :
    NRB_MINBIAS8 ≤ (-5 : Int) ∧ (-5 : Int) ≤ NRB_MAXBIAS8 ∧
    nrb_writeBias8 (-5) = some [((-5 : Int) + NRB_BIAS8).toNat] ∧
    nrb_readBias8 ([((-5 : Int) + NRB_BIAS8).toNat] ++ [9]) = some (-5, [9]) :=
  ⟨by decide, by decide, nrb_bias8_roundtrip (-5) [9] (by decide) (by decide)⟩

theorem nrb_cmp_nonpos (a b : NRB_NOTE) : nrb_cmp a b ≤ 0 ↔ a.start ≤ b.start := by
  unfold nrb_cmp
  split_ifs with h1 h2
  · simp [h1.le]
  · simp
    omega
  · simp
    omega

/-- Claim C8: nrb_sort reorders the notes of any document into ascending
order of their start field (stated as: the sorted note table is pairwise
ordered by start and is a permutation of the original), and sorting is
idempotent: sorting an already-sorted document changes nothing, which
implies sort (sort D) agrees with sort D in start-time order. -/
theorem nrb_sort_sorts (pd : NRB_DATA) :
    ((nrb_sort pd).pNote).Pairwise (fun a b => a.start ≤ b.start) ∧
    ((nrb_sort pd).pNote).Perm pd.pNote ∧
    nrb_sort (nrb_sort pd) = nrb_sort pd := by
  have htrans : ∀ a b c : NRB_NOTE,
      (decide (nrb_cmp a b ≤ 0)) = true → (decide (nrb_cmp b c ≤ 0)) = true →
      (decide (nrb_cmp a c ≤ 0)) = true := by
    intro a b c hab hbc
    simp only [decide_eq_true_eq, nrb_cmp_nonpos] at hab hbc ⊢
    exact le_trans hab hbc
  have htotal : ∀ a b : NRB_NOTE,
      ((decide (nrb_cmp a b ≤ 0)) || (decide (nrb_cmp b a ≤ 0))) = true := by
    intro a b
    simp only [Bool.or_eq_true, decide_eq_true_eq, nrb_cmp_nonpos]
    exact le_total a.start b.start
  by_cases hlen : pd.pNote.length > 1
  · unfold nrb_sort
    rw [if_pos hlen]
    have hsorted := List.sorted_mergeSort htrans htotal pd.pNote
    have hperm := List.mergeSort_perm pd.pNote (fun a b => decide (nrb_cmp a b ≤ 0))
    have hlen2 : (pd.pNote.mergeSort (fun a b => decide (nrb_cmp a b ≤ 0))).length > 1 := by
      rw [hperm.length_eq]
      exact hlen
    refine ⟨?_, ?_, ?_⟩
    · exact hsorted.imp (by intro a b hab; simpa [nrb_cmp_nonpos] using hab)
    · exact hperm
    · rw [if_pos hlen2]
      rw [List.mergeSort_of_sorted hsorted]
  · unfold nrb_sort
    rw [if_neg hlen]
    rw [if_neg hlen]
    refine ⟨?_, List.Perm.refl _, rfl⟩
    cases hn : pd.pNote with
    | nil => simp
    | cons x xs =>
      cases xs with
      | nil => simp
      | cons y ys => rw [hn] at hlen; simp at hlen

theorem nrb_readByte_exact {p : List Nat} (hp : p.length = 1) (rest : List Nat) :
    nrb_readByte (p ++ rest) = (nrb_readByte p).map (fun x => (x.1, rest)) := by
  match p, hp with
  | [c], _ =>
    unfold nrb_readByte
    by_cases hc : c ≤ 255 <;> simp [hc]

theorem nrb_readBE_exact (k : Nat) {p : List Nat} (hp : p.length = k)
    (acc : Nat) (rest : List Nat) :
    nrb_readBE k acc (p ++ rest) = (nrb_readBE k acc p).map (fun x => (x.1, rest)) := by
  induction k generalizing p acc with
  | zero =>
    have hnil : p = [] := List.length_eq_zero.mp hp
    subst hnil
    simp [nrb_readBE]
  | succ k ih =>
    cases p with
    | nil => simp at hp
    | cons b p' =>
      simp at hp
      unfold nrb_readBE
      by_cases hb : b ≤ 255
      · rw [show nrb_readByte (b :: p' ++ rest) = some (b, p' ++ rest) from by
          simp [nrb_readByte, hb]]
        rw [show nrb_readByte (b :: p') = some (b, p') from by simp [nrb_readByte, hb]]
        exact ih hp (acc * 256 + b)
      · rw [show nrb_readByte (b :: p' ++ rest) = none from by simp [nrb_readByte, hb]]
        rw [show nrb_readByte (b :: p') = none from by simp [nrb_readByte, hb]]
        simp

theorem nrb_readUint32_exact {p : List Nat} (hp : p.length = 4) (rest : List Nat) :
    nrb_readUint32 (p ++ rest) = (nrb_readUint32 p).map (fun x => (x.1, rest)) := by
  unfold nrb_readUint32 nrb_read32
  rw [nrb_readBE_exact 4 hp 0 rest]
  cases h : nrb_readBE 4 0 p with
  | none => simp
  | some vr =>
    obtain ⟨v, r0⟩ := vr
    by_cases hv : v ≤ NRB_MAXUINT32 <;> simp [hv]

theorem nrb_readUint16_exact {p : List Nat} (hp : p.length = 2) (rest : List Nat) :
    nrb_readUint16 (p ++ rest) = (nrb_readUint16 p).map (fun x => (x.1, rest)) := by
  unfold nrb_readUint16 nrb_read16
  rw [nrb_readBE_exact 2 hp 0 rest]
  cases h : nrb_readBE 2 0 p with
  | none => simp
  | some vr =>
    obtain ⟨v, r0⟩ := vr
    by_cases hv : v ≤ NRB_MAXUINT16 <;> simp [hv]

theorem nrb_readBE_beBytes (k : Nat) (acc v : Nat) (r : List Nat) :
    nrb_readBE k acc (nrb_beBytes k v ++ r) = some (acc * 256 ^ k + v % 256 ^ k, r) := by
  induction k generalizing acc v with
  | zero => simp [nrb_beBytes, nrb_readBE, Nat.mod_one]
  | succ k ih =>
    unfold nrb_beBytes nrb_readBE
    rw [List.cons_append]
    rw [show nrb_readByte (v / 256 ^ k % 256 :: (nrb_beBytes k v ++ r)) =
        some (v / 256 ^ k % 256, nrb_beBytes k v ++ r) from by
      have hb : v / 256 ^ k % 256 ≤ 255 := by omega
      simp [nrb_readByte, hb]]
    dsimp only
    rw [ih]
    rw [pow_succ]
    rw [show v % (256 ^ k * 256) = v % 256 ^ k + 256 ^ k * (v / 256 ^ k % 256) from
      Nat.mod_mul]
    refine congrArg (fun x => some (x, r)) ?_
    ring

theorem nrb_readUint64_beBytes {v : Nat} (hv : v ≤ NRB_MAXUINT64) (r : List Nat) :
    nrb_readUint64 (nrb_writeUint64 v ++ r) = some ((v : Int), r) := by
  unfold nrb_readUint64 nrb_read64 nrb_writeUint64
  have hlt : v % 256 ^ 8 = v := by
    apply Nat.mod_eq_of_lt
    unfold NRB_MAXUINT64 at hv
    omega
  rw [nrb_readBE_beBytes, show 0 * 256 ^ 8 + v % 256 ^ 8 = v from by rw [hlt]; ring]
  rw [obind_some]
  dsimp only
  rw [if_pos hv]
  rfl

theorem nrb_readUint64_beBytes_big {v : Nat} (hlo : NRB_MAXUINT64 < v)
    (hhi : v < 256 ^ 8) (r : List Nat) :
    nrb_readUint64 (nrb_writeUint64 v ++ r) = none := by
  unfold nrb_readUint64 nrb_read64 nrb_writeUint64
  have hlt : v % 256 ^ 8 = v := Nat.mod_eq_of_lt hhi
  rw [nrb_readBE_beBytes, show 0 * 256 ^ 8 + v % 256 ^ 8 = v from by rw [hlt]; ring]
  rw [obind_some]
  dsimp only
  rw [if_neg (by omega)]

theorem nrb_readUint32_beBytes {v : Nat} (hv : v ≤ NRB_MAXUINT32) (r : List Nat) :
    nrb_readUint32 (nrb_writeUint32 v ++ r) = some (v, r) := by
  unfold nrb_readUint32 nrb_read32 nrb_writeUint32
  have hlt : v % 256 ^ 4 = v := by
    apply Nat.mod_eq_of_lt
    unfold NRB_MAXUINT32 at hv
    omega
  rw [nrb_readBE_beBytes, show 0 * 256 ^ 4 + v % 256 ^ 4 = v from by rw [hlt]; ring]
  rw [obind_some]
  dsimp only
  rw [if_pos hv]
  rfl

theorem nrb_readUint16_beBytes {v : Nat} (hv : v ≤ NRB_MAXUINT16) (r : List Nat) :
    nrb_readUint16 (nrb_writeUint16 v ++ r) = some (v, r) := by
  unfold nrb_readUint16 nrb_read16 nrb_writeUint16
  have hlt : v % 256 ^ 2 = v := by
    apply Nat.mod_eq_of_lt
    unfold NRB_MAXUINT16 at hv
    omega
  rw [nrb_readBE_beBytes, show 0 * 256 ^ 2 + v % 256 ^ 2 = v from by rw [hlt]; ring]
  rw [obind_some]
  dsimp only
  rw [if_pos hv]
  rfl

theorem parseSigVer_exact {p : List Nat} (hp : p.length = 10) (rest : List Nat) :
    parseSigVer (p ++ rest) = (parseSigVer p).map (fun x => (x.1, x.2.1, rest)) := by
  obtain ⟨A, Z, rfl, hA, hZ⟩ : ∃ A Z, p = A ++ Z ∧ A.length = 4 ∧ Z.length = 6 :=
    ⟨p.take 4, p.drop 4, (List.take_append_drop 4 p).symm,
      by rw [List.length_take]; omega, by rw [List.length_drop]; omega⟩
  obtain ⟨B, W, rfl, hB, hW⟩ : ∃ B W, Z = B ++ W ∧ B.length = 4 ∧ W.length = 2 :=
    ⟨Z.take 4, Z.drop 4, (List.take_append_drop 4 Z).symm,
      by rw [List.length_take]; omega, by rw [List.length_drop]; omega⟩
  obtain ⟨x, y, rfl⟩ : ∃ x y, W = [x, y] := by
    match W, hW with
    | [x, y], _ => exact ⟨x, y, rfl⟩
  unfold parseSigVer
  simp only [List.append_assoc, List.cons_append, List.nil_append]
  rw [nrb_readUint32_exact hA (B ++ (x :: y :: rest)),
      nrb_readUint32_exact hA (B ++ [x, y])]
  cases hg1 : nrb_readUint32 A with
  | none => rfl
  | some vr1 =>
    obtain ⟨g1, ra⟩ := vr1
    simp only [Option.map_some']
    rw [obind_some, obind_some]
    dsimp only
    by_cases hc1 : g1 ≠ NRB_SIGPRI
    · rw [if_pos hc1, if_pos hc1]
      simp
    · rw [if_neg hc1, if_neg hc1]
      rw [nrb_readUint32_exact hB (x :: y :: rest), nrb_readUint32_exact hB [x, y]]
      cases hg2 : nrb_readUint32 B with
      | none => rfl
      | some vr2 =>
        obtain ⟨g2, rb⟩ := vr2
        simp only [Option.map_some']
        rw [obind_some, obind_some]
        dsimp only
        by_cases hc2 : g2 ≠ NRB_SIGSEC
        · rw [if_pos hc2, if_pos hc2]
          simp
        · rw [if_neg hc2, if_neg hc2]
          by_cases hx : x ≤ 255
          · rw [show nrb_readByte (x :: y :: rest) = some (x, y :: rest) from by
              simp [nrb_readByte, hx]]
            rw [show nrb_readByte [x, y] = some (x, [y]) from by simp [nrb_readByte, hx]]
            rw [obind_some, obind_some]
            dsimp only
            by_cases hy : y ≤ 255
            · rw [show nrb_readByte (y :: rest) = some (y, rest) from by
                simp [nrb_readByte, hy]]
              rw [show nrb_readByte [y] = some (y, []) from by simp [nrb_readByte, hy]]
              rw [obind_some, obind_some]
              rfl
            · rw [show nrb_readByte (y :: rest) = none from by simp [nrb_readByte, hy]]
              rw [show nrb_readByte [y] = none from by simp [nrb_readByte, hy]]
              rfl
          · rw [show nrb_readByte (x :: y :: rest) = none from by simp [nrb_readByte, hx]]
            rw [show nrb_readByte [x, y] = none from by simp [nrb_readByte, hx]]
            rfl

theorem parseBody_reserved {C : List Nat} (hC : C.length = 6) (r1 r2 tail : List Nat)
    (h1 : readReserved r1 = some []) (h2 : readReserved r2 = some []) :
    parseBody (C ++ (r1 ++ tail)) = parseBody (C ++ (r2 ++ tail)) := by
  obtain ⟨D, E, rfl, hD, hE⟩ : ∃ D E, C = D ++ E ∧ D.length = 2 ∧ E.length = 4 :=
    ⟨C.take 2, C.drop 2, (List.take_append_drop 2 C).symm,
      by rw [List.length_take]; omega, by rw [List.length_drop]; omega⟩
  have hres1 : readReserved (r1 ++ tail) = some tail := by
    have := readReserved_append tail h1
    simpa using this
  have hres2 : readReserved (r2 ++ tail) = some tail := by
    have := readReserved_append tail h2
    simpa using this
  unfold parseBody
  simp only [List.append_assoc]
  rw [nrb_readUint16_exact hD (E ++ (r1 ++ tail)),
      nrb_readUint16_exact hD (E ++ (r2 ++ tail))]
  cases hsc : nrb_readUint16 D with
  | none => rfl
  | some vr1 =>
    obtain ⟨sc, rd⟩ := vr1
    simp only [Option.map_some']
    rw [obind_some, obind_some]
    dsimp only
    by_cases hc1 : sc < 1 ∨ sc > NRB_MAXSECT
    · rw [if_pos hc1, if_pos hc1]
    · rw [if_neg hc1, if_neg hc1]
      rw [nrb_readUint32_exact hE (r1 ++ tail), nrb_readUint32_exact hE (r2 ++ tail)]
      cases hnc : nrb_readUint32 E with
      | none => rfl
      | some vr2 =>
        obtain ⟨nc, re⟩ := vr2
        simp only [Option.map_some']
        rw [obind_some, obind_some]
        dsimp only
        by_cases hc2 : nc < 1 ∨ nc > NRB_MAXNOTE
        · rw [if_pos hc2, if_pos hc2]
        · rw [if_neg hc2, if_neg hc2]
          rw [hres1, hres2]

/-- Claim C2 (amended): two streams that differ only in the 16 reserved
bytes parse identically provided both reserved blocks are accepted by
the four nrb_readUint32 reads, i.e. each of the four 32-bit values is at
most NRB_MAXUINT32 (INT32_MAX); a reserved value with the top bit set is
rejected by nrb_readUint32 and fails the parse. -/
theorem nrb_reserved_equivalent (pre r1 r2 tail : List Nat) (hp : pre.length = 16)
    (h1 : readReserved r1 = some []) (h2 : readReserved r2 = some []) :
    nrb_parse (pre ++ (r1 ++ tail)) = nrb_parse (pre ++ (r2 ++ tail)) := by
  obtain ⟨H, C, rfl, hH, hC⟩ : ∃ H C, pre = H ++ C ∧ H.length = 10 ∧ C.length = 6 :=
    ⟨pre.take 10, pre.drop 10, (List.take_append_drop 10 pre).symm,
      by rw [List.length_take]; omega, by rw [List.length_drop]; omega⟩
  unfold nrb_parse nrb_parseFull
  simp only [List.append_assoc]
  rw [parseSigVer_exact hH (C ++ (r1 ++ tail)), parseSigVer_exact hH (C ++ (r2 ++ tail))]
  cases hsv : parseSigVer H with
  | none => rfl
  | some vvr =>
    obtain ⟨vmaj, vmin, rh⟩ := vvr
    simp only [Option.map_some']
    by_cases hmaj : vmaj ≠ 1
    · rw [if_pos hmaj, if_pos hmaj]
    · rw [if_neg hmaj, if_neg hmaj]
      rw [parseBody_reserved hC r1 r2 tail h1 h2]

theorem readSectLoop_encode_ok (vs : List Nat) (prev : Nat) (rest : List Nat)
    (hall : ∀ v ∈ vs, v ≤ NRB_MAXUINT64) (hchain : List.Chain (· ≤ ·) prev vs) :
    readSectLoop vs.length (prev : Int) (sectTableBytes vs ++ rest) =
      some (vs.map (fun v => (v : Int)), rest) := by
  induction vs generalizing prev with
  | nil => simp [sectTableBytes, readSectLoop]
  | cons v vs ih =>
    obtain ⟨hpv, hchain'⟩ := List.chain_cons.mp hchain
    have hvM : v ≤ NRB_MAXUINT64 := hall v (by simp)
    have hall' : ∀ w ∈ vs, w ≤ NRB_MAXUINT64 := fun w hw => hall w (by simp [hw])
    show readSectLoop (vs.length + 1) (prev : Int)
      ((nrb_writeUint64 v ++ sectTableBytes vs) ++ rest) = _
    rw [List.append_assoc]
    unfold readSectLoop
    rw [nrb_readUint64_beBytes hvM, obind_some]
    dsimp only
    rw [if_neg (by exact_mod_cast not_lt.mpr hpv)]
    rw [ih v hall' hchain', obind_some]
    rfl

theorem readSectLoop_encode_fail (vs : List Nat) (prev : Nat) (rest : List Nat)
    (hbytes : ∀ v ∈ vs, v < 256 ^ 8)
    (hbad : ¬ ((∀ v ∈ vs, v ≤ NRB_MAXUINT64) ∧ List.Chain (· ≤ ·) prev vs)) :
    readSectLoop vs.length (prev : Int) (sectTableBytes vs ++ rest) = none := by
  induction vs generalizing prev with
  | nil => exact absurd ⟨by simp, List.Chain.nil⟩ hbad
  | cons v vs ih =>
    have hv8 : v < 256 ^ 8 := hbytes v (by simp)
    have hbytes' : ∀ w ∈ vs, w < 256 ^ 8 := fun w hw => hbytes w (by simp [hw])
    show readSectLoop (vs.length + 1) (prev : Int)
      ((nrb_writeUint64 v ++ sectTableBytes vs) ++ rest) = none
    rw [List.append_assoc]
    unfold readSectLoop
    by_cases hvM : v ≤ NRB_MAXUINT64
    · rw [nrb_readUint64_beBytes hvM, obind_some]
      dsimp only
      by_cases hpv : prev ≤ v
      · rw [if_neg (by exact_mod_cast not_lt.mpr hpv)]
        have hbad' : ¬ ((∀ w ∈ vs, w ≤ NRB_MAXUINT64) ∧ List.Chain (· ≤ ·) v vs) := by
          intro hgood
          refine hbad ⟨?_, List.chain_cons.mpr ⟨hpv, hgood.2⟩⟩
          intro w hw
          rcases List.mem_cons.mp hw with hw | hw
          · rw [hw]; exact hvM
          · exact hgood.1 w hw
        rw [ih v hbytes' hbad']
        rfl
      · rw [if_pos (by exact_mod_cast not_le.mp hpv)]
    · rw [nrb_readUint64_beBytes_big (by omega) hv8]
      rfl

theorem readSectTable_encode_iff (v0 : Nat) (vs : List Nat) (rest : List Nat)
    (hbytes : ∀ v ∈ v0 :: vs, v < 256 ^ 8) :
    readSectTable (v0 :: vs).length (sectTableBytes (v0 :: vs) ++ rest) =
      some ((v0 :: vs).map (fun v => (v : Int)), rest) ↔
    (v0 = 0 ∧ List.Chain' (· ≤ ·) (v0 :: vs) ∧ ∀ v ∈ v0 :: vs, v ≤ NRB_MAXUINT64) := by
  have hv8 : v0 < 256 ^ 8 := hbytes v0 (by simp)
  have hbytes' : ∀ w ∈ vs, w < 256 ^ 8 := fun w hw => hbytes w (by simp [hw])
  have hcheq : List.Chain' (· ≤ ·) (v0 :: vs) ↔ List.Chain (· ≤ ·) v0 vs := Iff.rfl
  show readSectTable (vs.length + 1)
    ((nrb_writeUint64 v0 ++ sectTableBytes vs) ++ rest) = _ ↔ _
  rw [List.append_assoc]
  unfold readSectTable
  dsimp only
  constructor
  · intro h
    by_cases hvM : v0 ≤ NRB_MAXUINT64
    · rw [nrb_readUint64_beBytes hvM, obind_some] at h
      dsimp only at h
      by_cases hz : (v0 : Int) ≠ 0
      · rw [if_pos hz] at h
        exact absurd h (by simp)
      · rw [if_neg hz] at h
        have hv0 : v0 = 0 := by exact_mod_cast not_not.mp hz
        by_cases hrest : (∀ w ∈ vs, w ≤ NRB_MAXUINT64) ∧ List.Chain (· ≤ ·) v0 vs
        · refine ⟨hv0, hcheq.mpr hrest.2, ?_⟩
          intro w hw
          rcases List.mem_cons.mp hw with hw | hw
          · rw [hw]; exact hvM
          · exact hrest.1 w hw
        · rw [readSectLoop_encode_fail vs v0 rest hbytes' hrest] at h
          exact absurd h (by simp)
    · rw [nrb_readUint64_beBytes_big (by omega) hv8] at h
      exact absurd h (by simp)
  · rintro ⟨hv0, hchain, hall⟩
    subst hv0
    rw [nrb_readUint64_beBytes (hall 0 (by simp)), obind_some]
    dsimp only
    rw [if_neg (by simp)]
    rw [readSectLoop_encode_ok vs 0 rest (fun w hw => hall w (by simp [hw]))
        (hcheq.mp hchain), obind_some]
    rfl

/-- Witness for the amended C2 at two concrete reserved blocks. -/
theorem nrb_reserved_equivalent_witness :
    streamHdr16.length = 16 ∧
    readReserved (List.replicate 16 0) = some [] ∧
    readReserved (List.replicate 16 1) = some [] ∧
    nrb_parse (streamHdr16 ++ (List.replicate 16 0 ++ streamTail24)) =
      nrb_parse (streamHdr16 ++ (List.replicate 16 1 ++ streamTail24)) :=
  ⟨by decide, by decide, by decide,
    nrb_reserved_equivalent streamHdr16 (List.replicate 16 0) (List.replicate 16 1)
      streamTail24 (by decide) (by decide) (by decide)⟩

/-- Counterexample to Claim C2 as stated: two streams that differ only in
the 16 reserved bytes at offsets 16-31 (both present, so no read
failure), where the all-zero reserved block parses successfully and the
block whose first byte is 128 (first reserved value 2^31) fails the
parse: the reserved fields' values can fail the parse. -/
theorem nrb_reserved_counterexample :
    nrb_parse (streamHdr16 ++ (List.replicate 16 0 ++ streamTail24)) =
      (some ⟨[0], [⟨0, 1000, 0, 0, 0, 0, 0⟩], 1, 1⟩, NRB_VER_MINOR) ∧
    nrb_parse (streamHdr16 ++ ((128 :: List.replicate 15 0) ++ streamTail24)) =
      (none, NRB_VER_MINOR) ∧
    streamHdr16.length = 16 ∧
    (List.replicate 16 (0 : Nat)).length = 16 ∧
    (128 :: List.replicate 15 (0 : Nat)).length = 16 := by decide

/-- Claim C3 (amended): during nrb_parse every section table entry is
read as an unsigned 64-bit big-endian value, and an encoded table is
accepted (with exactly its values as the section offsets) precisely when
element 0 equals 0, the elements are non-decreasing, and every element
is at most NRB_MAXUINT64 = 2^63 - 1: the unsigned-range check of
nrb_readUint64 rejects any entry with the top bit set, so the accepted
range is [0, 2^63 - 1], not the full unsigned 64-bit range. -/
theorem nrb_sectTable_amended (v0 : Nat) (vs : List Nat) (rest : List Nat)
    (hbytes : ∀ v ∈ v0 :: vs, v < 256 ^ 8) :
    readSectTable (v0 :: vs).length (sectTableBytes (v0 :: vs) ++ rest) =
      some ((v0 :: vs).map (fun v => (v : Int)), rest) ↔
    (v0 = 0 ∧ List.Chain' (· ≤ ·) (v0 :: vs) ∧ ∀ v ∈ v0 :: vs, v ≤ NRB_MAXUINT64) :=
  readSectTable_encode_iff v0 vs rest hbytes

/-- Witness for the amended C3 at the concrete table (0, 5). -/
theorem nrb_sectTable_amended_witness :
    (∀ v ∈ [(0 : Nat), 5], v < 256 ^ 8) ∧
    readSectTable ([(0 : Nat), 5]).length (sectTableBytes [0, 5] ++ [9]) =
      some (([(0 : Nat), 5]).map (fun v => (v : Int)), [9]) :=
  ⟨by decide,
    (nrb_sectTable_amended 0 [5] [9] (by decide)).mpr
      ⟨rfl, List.Chain.cons (by norm_num) List.Chain.nil, by decide⟩⟩

/-- Counterexample to Claim C3 as stated: the unsigned pair (0, 2^63)
satisfies the ordering rules (first element 0, non-decreasing) and lies
in the unsigned 64-bit range, yet the section table read rejects it, and
a full stream carrying that section table fails nrb_parse (with version
status NRB_VER_OK). -/
theorem nrb_sectTable_counterexample :
    ((0 : Nat) = 0 ∧ (0 : Nat) ≤ 2 ^ 63 ∧ (2 ^ 63 : Nat) < 2 ^ 64) ∧
    readSectTable 2 (sectTableBytes [0, 2 ^ 63] ++ []) = none ∧
    nrb_parse streamBigSect = (none, NRB_VER_OK) := by decide

theorem readNote_post {sects : List Int} {s r : List Nat} {n : NRB_NOTE}
    (h : readNote sects s = some (n, r)) :
    n.sect < sects.length ∧ sects.getD n.sect 0 ≤ n.start := by
  unfold readNote at h
  cases h1 : nrb_readUint64 s with
  | none => rw [h1, obind_none] at h; exact absurd h (by simp)
  | some vr1 =>
    obtain ⟨start, s1⟩ := vr1
    rw [h1, obind_some] at h
    dsimp only at h
    cases h2 : nrb_readUint64 s1 with
    | none => rw [h2, obind_none] at h; exact absurd h (by simp)
    | some vr2 =>
      obtain ⟨release, s2⟩ := vr2
      rw [h2, obind_some] at h
      dsimp only at h
      by_cases hc1 : release ≤ start
      · rw [if_pos hc1] at h; exact absurd h (by simp)
      · rw [if_neg hc1] at h
        cases h3 : nrb_readBias8 s2 with
        | none => rw [h3, obind_none] at h; exact absurd h (by simp)
        | some vr3 =>
          obtain ⟨p, s3⟩ := vr3
          rw [h3, obind_some] at h
          dsimp only at h
          by_cases hc2 : p < NRB_MINPITCH ∨ p > NRB_MAXPITCH
          · rw [if_pos hc2] at h; exact absurd h (by simp)
          · rw [if_neg hc2] at h
            cases h4 : nrb_readByte s3 with
            | none => rw [h4, obind_none] at h; exact absurd h (by simp)
            | some vr4 =>
              obtain ⟨a, s4⟩ := vr4
              rw [h4, obind_some] at h
              dsimp only at h
              by_cases hc3 : a % 64 > NRB_MAXART
              · rw [if_pos hc3] at h; exact absurd h (by simp)
              · rw [if_neg hc3] at h
                cases h5 : nrb_readUint16 s4 with
                | none => rw [h5, obind_none] at h; exact absurd h (by simp)
                | some vr5 =>
                  obtain ⟨rm, s5⟩ := vr5
                  rw [h5, obind_some] at h
                  dsimp only at h
                  by_cases hc4 : rm > NRB_MAXRAMP
                  · rw [if_pos hc4] at h; exact absurd h (by simp)
                  · rw [if_neg hc4] at h
                    cases h6 : nrb_readUint16 s5 with
                    | none => rw [h6, obind_none] at h; exact absurd h (by simp)
                    | some vr6 =>
                      obtain ⟨sc, s6⟩ := vr6
                      rw [h6, obind_some] at h
                      dsimp only at h
                      by_cases hc5 : sc ≥ sects.length
                      · rw [if_pos hc5] at h; exact absurd h (by simp)
                      · rw [if_neg hc5] at h
                        cases h7 : nrb_readUint16 s6 with
                        | none => rw [h7, obind_none] at h; exact absurd h (by simp)
                        | some vr7 =>
                          obtain ⟨ly, s7⟩ := vr7
                          rw [h7, obind_some] at h
                          dsimp only [Option.pure_def] at h
                          by_cases hc6 : start < sects.getD sc 0
                          · rw [if_pos hc6] at h; exact absurd h (by simp)
                          · rw [if_neg hc6] at h
                            rw [Option.some.injEq, Prod.mk.injEq] at h
                            obtain ⟨h8, h9⟩ := h
                            rw [← h8]
                            exact ⟨not_le.mp hc5, not_lt.mp hc6⟩

theorem readNotes_post (k : Nat) {sects : List Int} {s r : List Nat}
    {ns : List NRB_NOTE} (h : readNotes k sects s = some (ns, r)) :
    ∀ n ∈ ns, n.sect < sects.length ∧ sects.getD n.sect 0 ≤ n.start := by
  induction k generalizing s ns r with
  | zero =>
    unfold readNotes at h
    rw [Option.some.injEq, Prod.mk.injEq] at h
    obtain ⟨h1, _⟩ := h
    subst h1
    intro n hn
    simp at hn
  | succ k ih =>
    unfold readNotes at h
    cases h1 : readNote sects s with
    | none => rw [h1, obind_none] at h; exact absurd h (by simp)
    | some nr =>
      obtain ⟨n0, s'⟩ := nr
      rw [h1, obind_some] at h
      dsimp only at h
      cases h2 : readNotes k sects s' with
      | none => rw [h2, obind_none] at h; exact absurd h (by simp)
      | some lr =>
        obtain ⟨l, s''⟩ := lr
        rw [h2, obind_some] at h
        dsimp only [Option.pure_def] at h
        rw [Option.some.injEq, Prod.mk.injEq] at h
        obtain ⟨h3, _⟩ := h
        subst h3
        intro n hn
        rcases List.mem_cons.mp hn with hn | hn
        · subst hn
          exact readNote_post h1
        · exact ih h2 n hn

theorem parseBody_post {s r : List Nat} {pd : NRB_DATA}
    (h : parseBody s = some (pd, r)) : refIntegrity pd := by
  unfold parseBody at h
  cases h1 : nrb_readUint16 s with
  | none => rw [h1, obind_none] at h; exact absurd h (by simp)
  | some vr1 =>
    obtain ⟨sc, s1⟩ := vr1
    rw [h1, obind_some] at h
    dsimp only at h
    by_cases hc1 : sc < 1 ∨ sc > NRB_MAXSECT
    · rw [if_pos hc1] at h; exact absurd h (by simp)
    · rw [if_neg hc1] at h
      cases h2 : nrb_readUint32 s1 with
      | none => rw [h2, obind_none] at h; exact absurd h (by simp)
      | some vr2 =>
        obtain ⟨nc, s2⟩ := vr2
        rw [h2, obind_some] at h
        dsimp only at h
        by_cases hc2 : nc < 1 ∨ nc > NRB_MAXNOTE
        · rw [if_pos hc2] at h; exact absurd h (by simp)
        · rw [if_neg hc2] at h
          cases h3 : readReserved s2 with
          | none => rw [h3, obind_none] at h; exact absurd h (by simp)
          | some s3 =>
            rw [h3, obind_some] at h
            cases h4 : readSectTable sc s3 with
            | none => rw [h4, obind_none] at h; exact absurd h (by simp)
            | some slr =>
              obtain ⟨sects, s4⟩ := slr
              rw [h4, obind_some] at h
              dsimp only at h
              cases h5 : readNotes nc sects s4 with
              | none => rw [h5, obind_none] at h; exact absurd h (by simp)
              | some nlr =>
                obtain ⟨notes, s5⟩ := nlr
                rw [h5, obind_some] at h
                dsimp only [Option.pure_def] at h
                rw [Option.some.injEq, Prod.mk.injEq] at h
                obtain ⟨h6, _⟩ := h
                subst h6
                exact readNotes_post nc h5

theorem nrb_parse_post {s : List Nat} {pd : NRB_DATA} {v : Nat}
    (h : nrb_parse s = (some pd, v)) : refIntegrity pd := by
  unfold nrb_parse nrb_parseFull at h
  have h1 : ((match parseSigVer s with
      | none => ((none : Option (NRB_DATA × List Nat)), NRB_VER_ERROR)
      | some (vmaj, vmin, s4) =>
        if vmaj ≠ 1 then (none, NRB_VER_MAJOR)
        else (parseBody s4, if vmin = 0 then NRB_VER_OK else NRB_VER_MINOR)).1.map
        Prod.fst) = some pd := congrArg Prod.fst h
  cases hsv : parseSigVer s with
  | none => rw [hsv] at h1; exact absurd h1 (by simp)
  | some vvr =>
    obtain ⟨vmaj, vmin, s4⟩ := vvr
    rw [hsv] at h1
    dsimp only at h1
    by_cases hmaj : vmaj ≠ 1
    · rw [if_pos hmaj] at h1; exact absurd h1 (by simp)
    · rw [if_neg hmaj] at h1
      dsimp only at h1
      cases hb : parseBody s4 with
      | none => rw [hb] at h1; exact absurd h1 (by simp)
      | some br =>
        obtain ⟨pd', r⟩ := br
        rw [hb] at h1
        simp at h1
        rw [← h1]
        exact parseBody_post hb

theorem nrb_sect_inv {pd pd' : NRB_DATA} {off : Int} {st : Bool}
    (h : nrb_sect pd off = some (pd', st)) :
    pd' = pd ∨ (pd'.pSect = pd.pSect ++ [off] ∧ pd'.pNote = pd.pNote) := by
  unfold nrb_sect at h
  by_cases h0 : off < 0
  · rw [if_pos h0] at h; exact absurd h (by simp)
  · rw [if_neg h0] at h
    cases hl : pd.pSect.getLast? with
    | none => rw [hl] at h; exact absurd h (by simp)
    | some last =>
      rw [hl] at h
      dsimp only at h
      by_cases h1 : off < last
      · rw [if_pos h1] at h; exact absurd h (by simp)
      · rw [if_neg h1] at h
        by_cases h2 : pd.pSect.length < NRB_MAXSECT
        · rw [if_pos h2] at h
          rw [Option.some.injEq, Prod.mk.injEq] at h
          right
          rw [← h.1]
          exact ⟨rfl, rfl⟩
        · rw [if_neg h2] at h
          rw [Option.some.injEq, Prod.mk.injEq] at h
          left
          exact h.1.symm

theorem nrb_append_inv {pd pd' : NRB_DATA} {n : NRB_NOTE} {st : Bool}
    (h : nrb_append pd n = some (pd', st)) :
    noteOk pd n ∧
      (pd' = pd ∨ (pd'.pSect = pd.pSect ∧ pd'.pNote = pd.pNote ++ [n])) := by
  unfold nrb_append at h
  by_cases hok : noteOk pd n
  · rw [if_pos hok] at h
    refine ⟨hok, ?_⟩
    by_cases h2 : pd.pNote.length < NRB_MAXNOTE
    · rw [if_pos h2] at h
      rw [Option.some.injEq, Prod.mk.injEq] at h
      right
      rw [← h.1]
      exact ⟨rfl, rfl⟩
    · rw [if_neg h2] at h
      rw [Option.some.injEq, Prod.mk.injEq] at h
      left
      exact h.1.symm
  · rw [if_neg hok] at h
    exact absurd h (by simp)

theorem nrb_set_inv {pd pd' : NRB_DATA} {i : Nat} {n : NRB_NOTE}
    (h : nrb_set pd i n = some pd') :
    noteOk pd n ∧ pd'.pSect = pd.pSect ∧ pd'.pNote = pd.pNote.set i n := by
  unfold nrb_set at h
  by_cases h1 : i ≥ pd.pNote.length
  · rw [if_pos h1] at h; exact absurd h (by simp)
  · rw [if_neg h1] at h
    by_cases hok : noteOk pd n
    · rw [if_pos hok] at h
      rw [Option.some.injEq] at h
      exact ⟨hok, by rw [← h], by rw [← h]⟩
    · rw [if_neg hok] at h; exact absurd h (by simp)

theorem refIntegrity_reachable {pd : NRB_DATA} (h : Reachable pd) : refIntegrity pd := by
  induction h with
  | alloc => intro n hn; simp [nrb_alloc] at hn
  | sect hre hop ih =>
    rcases nrb_sect_inv hop with heq | ⟨hs, hn⟩
    · rw [heq]; exact ih
    · intro m hm
      rw [hn] at hm
      obtain ⟨hlt, hge⟩ := ih m hm
      rw [hs]
      refine ⟨?_, ?_⟩
      · rw [List.length_append]
        omega
      · rw [List.getD_append _ _ _ _ hlt]
        exact hge
  | append hre hop ih =>
    obtain ⟨hok, hcase⟩ := nrb_append_inv hop
    rcases hcase with heq | ⟨hs, hn⟩
    · rw [heq]; exact ih
    · intro m hm
      rw [hn] at hm
      rcases List.mem_append.mp hm with hm | hm
      · obtain ⟨hlt, hge⟩ := ih m hm
        rw [hs]
        exact ⟨hlt, hge⟩
      · rw [List.mem_singleton.mp hm, hs]
        exact ⟨hok.2.2.2.2.2.2.1, hok.2.2.2.2.2.2.2⟩
  | set hre hop ih =>
    obtain ⟨hok, hs, hn⟩ := nrb_set_inv hop
    intro m hm
    rw [hn] at hm
    rcases List.mem_or_eq_of_mem_set hm with hm | hm
    · obtain ⟨hlt, hge⟩ := ih m hm
      rw [hs]
      exact ⟨hlt, hge⟩
    · subst hm
      rw [hs]
      exact ⟨hok.2.2.2.2.2.2.1, hok.2.2.2.2.2.2.2⟩
  | @sort pd hre ih =>
    intro m hm
    unfold nrb_sort at hm ⊢
    by_cases hlen : pd.pNote.length > 1
    · rw [if_pos hlen] at hm ⊢
      dsimp only at hm ⊢
      exact ih m ((List.mergeSort_perm pd.pNote _).mem_iff.mp hm)
    · rw [if_neg hlen] at hm ⊢
      exact ih m hm

/-- Claim C4: reference integrity invariant.  Every document produced by
a successful nrb_parse, and every document obtained from nrb_alloc by a
sequence of successful nrb_sect / nrb_append / nrb_set / nrb_sort calls,
has every note referencing a defined section (note.sect below the
section count) and starting no earlier than that section's offset. -/
theorem nrb_reference_integrity (s : List Nat) (pd1 : NRB_DATA) (v : Nat)
    (pd2 : NRB_DATA) (h1 : nrb_parse s = (some pd1, v)) (h2 : Reachable pd2) :
    refIntegrity pd1 ∧ refIntegrity pd2 :=
  ⟨nrb_parse_post h1, refIntegrity_reachable h2⟩

/-- Witness for C4 at the scenario-B stream and the freshly allocated
document. -/
theorem nrb_reference_integrity_witness :
    nrb_parse streamScenarioB =
      (some ⟨[0], [⟨0, 1000, 0, 0, 0, 0, 0⟩], 1, 1⟩, NRB_VER_MINOR) ∧
    Reachable nrb_alloc ∧
    (refIntegrity ⟨[0], [⟨0, 1000, 0, 0, 0, 0, 0⟩], 1, 1⟩ ∧ refIntegrity nrb_alloc) :=
  ⟨by decide, Reachable.alloc,
    nrb_reference_integrity streamScenarioB _ NRB_VER_MINOR nrb_alloc
      (by decide) Reachable.alloc⟩

theorem noteOk_pSect {pd1 pd2 : NRB_DATA} (hs : pd1.pSect = pd2.pSect) (n : NRB_NOTE) :
    noteOk pd1 n ↔ noteOk pd2 n := by
  unfold noteOk
  rw [hs]

theorem nrb_appendAll_ok (ns : List NRB_NOTE) (pd : NRB_DATA)
    (hok : ∀ n ∈ ns, noteOk pd n)
    (hlen : pd.pNote.length + ns.length ≤ NRB_MAXNOTE) :
    ∃ cap, nrb_appendAll pd ns =
      some (⟨pd.pSect, pd.pNote ++ ns, pd.sect_cap, cap⟩, true) := by
  induction ns generalizing pd with
  | nil => exact ⟨pd.note_cap, by simp [nrb_appendAll]⟩
  | cons n ns ih =>
    have hokn : noteOk pd n := hok n (by simp)
    have hlt : pd.pNote.length < NRB_MAXNOTE := by
      simp at hlen
      omega
    obtain ⟨cap', hrec⟩ := ih
      ⟨pd.pSect, pd.pNote ++ [n], pd.sect_cap,
        if pd.pNote.length ≥ pd.note_cap then
          growCap pd.note_cap NRB_NOTEALLOC_INIT NRB_MAXNOTE
        else pd.note_cap⟩
      (by
        intro m hm
        exact (noteOk_pSect rfl m).mpr (hok m (List.mem_cons_of_mem n hm)))
      (by
        simp at hlen ⊢
        omega)
    refine ⟨cap', ?_⟩
    unfold nrb_appendAll
    rw [show nrb_append pd n = some (⟨pd.pSect, pd.pNote ++ [n], pd.sect_cap,
        if pd.pNote.length ≥ pd.note_cap then
          growCap pd.note_cap NRB_NOTEALLOC_INIT NRB_MAXNOTE
        else pd.note_cap⟩, true) from by
      unfold nrb_append
      rw [if_pos hokn, if_pos hlt]]
    dsimp only
    rw [hrec]
    simp

theorem nrb_sectAll_ok (offs : List Int) (pd : NRB_DATA) (last : Int)
    (hlast : pd.pSect.getLast? = some last) (h0 : 0 ≤ last)
    (hchain : List.Chain (· ≤ ·) last offs)
    (hlen : pd.pSect.length + offs.length ≤ NRB_MAXSECT) :
    ∃ cap, nrb_sectAll pd offs =
      some (⟨pd.pSect ++ offs, pd.pNote, cap, pd.note_cap⟩, true) := by
  induction offs generalizing pd last with
  | nil => exact ⟨pd.sect_cap, by simp [nrb_sectAll]⟩
  | cons off offs ih =>
    obtain ⟨hl0, hchain'⟩ := List.chain_cons.mp hchain
    have hoff0 : (0 : Int) ≤ off := le_trans h0 hl0
    have hlt : pd.pSect.length < NRB_MAXSECT := by
      simp at hlen
      omega
    obtain ⟨cap', hrec⟩ := ih
      ⟨pd.pSect ++ [off], pd.pNote,
        if pd.pSect.length ≥ pd.sect_cap then
          growCap pd.sect_cap NRB_SECTALLOC_INIT NRB_MAXSECT
        else pd.sect_cap,
        pd.note_cap⟩ off
      (List.getLast?_concat _) hoff0 hchain'
      (by
        simp at hlen ⊢
        omega)
    refine ⟨cap', ?_⟩
    unfold nrb_sectAll
    rw [show nrb_sect pd off = some (⟨pd.pSect ++ [off], pd.pNote,
        if pd.pSect.length ≥ pd.sect_cap then
          growCap pd.sect_cap NRB_SECTALLOC_INIT NRB_MAXSECT
        else pd.sect_cap,
        pd.note_cap⟩, true) from by
      unfold nrb_sect
      rw [if_neg (not_lt.mpr hoff0), hlast]
      dsimp only
      rw [if_neg (not_lt.mpr hl0), if_pos hlt]]
    dsimp only
    rw [hrec]
    simp

theorem nrb_sectAll_compose {pd pd1 pd2 : NRB_DATA} {l1 l2 : List Int} {st1 st2 : Bool}
    (h1 : nrb_sectAll pd l1 = some (pd1, st1))
    (h2 : nrb_sectAll pd1 l2 = some (pd2, st2)) :
    nrb_sectAll pd (l1 ++ l2) = some (pd2, st1 && st2) := by
  induction l1 generalizing pd st1 with
  | nil =>
    unfold nrb_sectAll at h1
    rw [Option.some.injEq, Prod.mk.injEq] at h1
    obtain ⟨hpd, hst⟩ := h1
    subst hpd
    rw [← hst]
    simpa using h2
  | cons o l1 ih =>
    simp only [nrb_sectAll] at h1 ⊢
    cases hs : nrb_sect pd o with
    | none => rw [hs] at h1; exact absurd h1 (by simp)
    | some pr =>
      obtain ⟨p', st'⟩ := pr
      rw [hs] at h1
      dsimp only at h1 ⊢
      rw [show List.append l1 l2 = l1 ++ l2 from rfl]
      cases hrest : nrb_sectAll p' l1 with
      | none => rw [hrest] at h1; exact absurd h1 (by simp)
      | some qr =>
        obtain ⟨pd1', st1''⟩ := qr
        rw [hrest] at h1
        rw [Option.some.injEq, Prod.mk.injEq] at h1
        obtain ⟨hpd1, hst1⟩ := h1
        subst hpd1
        rw [ih hrest]
        rw [← hst1]
        rw [Bool.and_assoc]

/-- Claim C5 (amended): growth correctness.  From a fresh document, any
list of notes each passing validation, up to the 1,048,576 ceiling, is
appended entirely with nonzero status and reads back unchanged through
nrb_get.  Since section zero is predefined, at most 65,534 offsets can
be appended with nrb_sect; a non-decreasing nonnegative list of that
length is appended entirely with nonzero status, giving stored count
N + 1 and reading back unchanged through nrb_offset at indices 1..N.
An append attempted when the count is already at the ceiling returns
status zero with the document (its count and every entry) unchanged. -/
theorem nrb_growth (ns : List NRB_NOTE) (offs : List Int)
    (pdN pdS : NRB_DATA) (n : NRB_NOTE) (off last : Int)
    (hns : ∀ m ∈ ns, noteOk nrb_alloc m) (hnsLen : ns.length ≤ NRB_MAXNOTE)
    (hchain : List.Chain (· ≤ ·) 0 offs) (hoffsLen : offs.length ≤ NRB_MAXSECT - 1)
    (hNfull : pdN.pNote.length = NRB_MAXNOTE) (hnOk : noteOk pdN n)
    (hSfull : pdS.pSect.length = NRB_MAXSECT)
    (hSlast : pdS.pSect.getLast? = some last) (hoff0 : 0 ≤ off)
    (hoffLast : last ≤ off) :
    (∃ d, nrb_appendAll nrb_alloc ns = some (d, true) ∧ d.pNote = ns ∧
      d.pSect = [0] ∧ ∀ i : Nat, nrb_get d i = ns.get? i) ∧
    (∃ d, nrb_sectAll nrb_alloc offs = some (d, true) ∧ d.pSect = 0 :: offs ∧
      d.pNote = [] ∧ ∀ i : Nat, nrb_offset d (i + 1) = offs.get? i) ∧
    nrb_append pdN n = some (pdN, false) ∧
    nrb_sect pdS off = some (pdS, false) := by
  refine ⟨?_, ?_, ?_, ?_⟩
  · obtain ⟨cap, happ⟩ := nrb_appendAll_ok ns nrb_alloc hns
      (by simpa [nrb_alloc] using hnsLen)
    refine ⟨⟨[0], ns, NRB_SECTALLOC_INIT, cap⟩, ?_, rfl, rfl, fun i => rfl⟩
    simpa [nrb_alloc] using happ
  · obtain ⟨cap, hsec⟩ := nrb_sectAll_ok offs nrb_alloc 0 rfl le_rfl hchain
      (by
        simp [nrb_alloc]
        unfold NRB_MAXSECT at hoffsLen ⊢
        omega)
    refine ⟨⟨0 :: offs, [], cap, NRB_NOTEALLOC_INIT⟩, ?_, rfl, rfl, fun i => rfl⟩
    simpa [nrb_alloc] using hsec
  · unfold nrb_append
    rw [if_pos hnOk, if_neg (by rw [hNfull]; exact lt_irrefl _)]
  · unfold nrb_sect
    rw [if_neg (not_lt.mpr hoff0), hSlast]
    dsimp only
    rw [if_neg (not_lt.mpr hoffLast), if_neg (by rw [hSfull]; exact lt_irrefl _)]

theorem nrb_sectAll_single (pd : NRB_DATA) (off : Int) {pd' : NRB_DATA} {st : Bool}
    (h : nrb_sect pd off = some (pd', st)) : nrb_sectAll pd [off] = some (pd', st) := by
  simp only [nrb_sectAll]
  rw [h]
  dsimp only
  rw [Bool.and_true]

/-- Counterexample to Claim C5 as stated: appending 65,535 valid section
offsets (65,534 zeros then a 1, each at least the previous stored
offset) to a fresh document does not make all 65,535 entries
retrievable: the last append fails (overall status zero, with no abort),
and the final table is 65,535 zeros, nowhere containing the value 1,
because section zero is predefined and the table reaches the 65,535
ceiling after only 65,534 appends. -/
theorem nrb_growth_counterexample :
    (nrb_sectAll nrb_alloc (List.replicate 65534 (0 : Int) ++ [1])).map
      (fun p => (p.1.pSect, p.2)) = some (List.replicate 65535 (0 : Int), false) ∧
    (List.replicate 65534 (0 : Int) ++ [1]).length = 65535 ∧
    65535 ≤ NRB_MAXSECT ∧
    (1 : Int) ∉ List.replicate 65535 (0 : Int) := by
  have hrepl : ([0] : List Int) ++ List.replicate 65534 0 = List.replicate 65535 0 := by
    rw [show (65535 : Nat) = 65534 + 1 from rfl, List.replicate_succ]
    rfl
  have hlast : (List.replicate 65535 (0 : Int)).getLast? = some 0 := by
    rw [show (65535 : Nat) = 65534 + 1 from rfl, List.replicate_succ',
        List.getLast?_concat]
  obtain ⟨cap, hrep⟩ := nrb_sectAll_ok (List.replicate 65534 (0 : Int)) nrb_alloc 0
    rfl le_rfl (List.chain_replicate_of_rel 65534 le_rfl)
    (by
      rw [List.length_replicate]
      show 1 + 65534 ≤ 65535
      omega)
  rw [show nrb_alloc.pSect ++ List.replicate 65534 (0 : Int) =
      List.replicate 65535 0 from hrepl] at hrep
  have hstep : nrb_sect ⟨List.replicate 65535 (0 : Int), nrb_alloc.pNote,
      cap, nrb_alloc.note_cap⟩ 1 =
      some (⟨List.replicate 65535 (0 : Int), nrb_alloc.pNote,
        cap, nrb_alloc.note_cap⟩, false) := by
    unfold nrb_sect
    rw [if_neg (by norm_num)]
    dsimp only
    rw [hlast]
    dsimp only
    rw [if_neg (by norm_num), if_neg (by
      rw [List.length_replicate]
      exact lt_irrefl 65535)]
  have hsingle : nrb_sectAll ⟨List.replicate 65535 (0 : Int), nrb_alloc.pNote,
      cap, nrb_alloc.note_cap⟩ [1] =
      some (⟨List.replicate 65535 (0 : Int), nrb_alloc.pNote,
        cap, nrb_alloc.note_cap⟩, false) := nrb_sectAll_single _ 1 hstep
  have hcomp := nrb_sectAll_compose hrep hsingle
  refine ⟨?_, ?_, by unfold NRB_MAXSECT; omega, ?_⟩
  · rw [hcomp]
    rfl
  · rw [List.length_append, List.length_replicate]
    rfl
  · rw [List.mem_replicate]
    intro hmem
    exact absurd hmem.2 (by norm_num)

/-- Witness for the amended C5 at concrete inputs: a single valid note, a
single section offset 3, and documents already at the note and section
ceilings. -/
theorem nrb_growth_witness :
    (∀ m ∈ [noteW], noteOk nrb_alloc m) ∧ [noteW].length ≤ NRB_MAXNOTE ∧
    List.Chain (· ≤ ·) 0 [(3 : Int)] ∧ [(3 : Int)].length ≤ NRB_MAXSECT - 1 ∧
    pdNFull.pNote.length = NRB_MAXNOTE ∧ noteOk pdNFull noteW ∧
    pdSFull.pSect.length = NRB_MAXSECT ∧ pdSFull.pSect.getLast? = some 0 ∧
    (0 : Int) ≤ 1 ∧
    ((∃ d, nrb_appendAll nrb_alloc [noteW] = some (d, true) ∧ d.pNote = [noteW] ∧
        d.pSect = [0] ∧ ∀ i : Nat, nrb_get d i = [noteW].get? i) ∧
      (∃ d, nrb_sectAll nrb_alloc [(3 : Int)] = some (d, true) ∧
        d.pSect = 0 :: [(3 : Int)] ∧
        d.pNote = [] ∧ ∀ i : Nat, nrb_offset d (i + 1) = [(3 : Int)].get? i) ∧
      nrb_append pdNFull noteW = some (pdNFull, false) ∧
      nrb_sect pdSFull 1 = some (pdSFull, false)) := by
  have h1 : ∀ m ∈ [noteW], noteOk nrb_alloc m := by decide
  have h2 : ([noteW] : List NRB_NOTE).length ≤ NRB_MAXNOTE := by decide
  have h3 : List.Chain (· ≤ ·) (0 : Int) [(3 : Int)] :=
    List.Chain.cons (by norm_num) List.Chain.nil
  have h4 : ([(3 : Int)] : List Int).length ≤ NRB_MAXSECT - 1 := by decide
  have h5 : pdNFull.pNote.length = NRB_MAXNOTE := by
    rw [show pdNFull.pNote = List.replicate NRB_MAXNOTE noteW from rfl,
        List.length_replicate]
  have h6 : noteOk pdNFull noteW :=
    (noteOk_pSect (show pdNFull.pSect = nrb_alloc.pSect from rfl) noteW).mpr (by decide)
  have h7 : pdSFull.pSect.length = NRB_MAXSECT := by
    rw [show pdSFull.pSect = List.replicate 65535 (0 : Int) from rfl,
        List.length_replicate]
    rfl
  have h8 : pdSFull.pSect.getLast? = some 0 := by
    rw [show pdSFull.pSect = List.replicate 65535 (0 : Int) from rfl,
        show (65535 : Nat) = 65534 + 1 from rfl, List.replicate_succ',
        List.getLast?_concat]
  have h9 : (0 : Int) ≤ 1 := by norm_num
  exact ⟨h1, h2, h3, h4, h5, h6, h7, h8, h9,
    nrb_growth [noteW] [(3 : Int)] pdNFull pdSFull noteW 1 0
      h1 h2 h3 h4 h5 h6 h7 h8 h9 h9⟩

theorem nrb_readUint64_toUint64 {x : Int} (h0 : 0 ≤ x) (h1 : x ≤ (NRB_MAXUINT64 : Int))
    (r : List Nat) :
    nrb_readUint64 (nrb_writeUint64 (toUint64 x) ++ r) = some (x, r) := by
  have hlt : x < (2 : Int) ^ 64 := by
    unfold NRB_MAXUINT64 at h1
    omega
  have hmod : x % (2 : Int) ^ 64 = x := Int.emod_eq_of_lt h0 hlt
  have htu : toUint64 x = x.toNat := by
    unfold toUint64
    rw [hmod]
  have hle : x.toNat ≤ NRB_MAXUINT64 := by
    unfold NRB_MAXUINT64 at h1 ⊢
    omega
  rw [htu, nrb_readUint64_beBytes hle, Int.toNat_of_nonneg h0]

theorem nrb_readBias8_encode {v : Int} (h1 : NRB_MINBIAS8 ≤ v) (h2 : v ≤ NRB_MAXBIAS8)
    (r : List Nat) :
    nrb_readBias8 ((v + NRB_BIAS8).toNat :: r) = some (v, r) := by
  unfold NRB_MINBIAS8 at h1
  unfold NRB_MAXBIAS8 at h2
  have hge : (0 : Int) ≤ v + NRB_BIAS8 := by unfold NRB_BIAS8; omega
  have hb : ((v + NRB_BIAS8).toNat : Int) = v + NRB_BIAS8 := Int.toNat_of_nonneg hge
  have hle : (v + NRB_BIAS8).toNat ≤ 255 := by
    unfold NRB_BIAS8 at hb ⊢
    omega
  unfold nrb_readBias8
  rw [show nrb_readByte ((v + NRB_BIAS8).toNat :: r) =
      some ((v + NRB_BIAS8).toNat, r) from by simp [nrb_readByte, hle]]
  rw [obind_some]
  dsimp only [Option.pure_def]
  rw [Option.some.injEq, Prod.mk.injEq]
  refine ⟨?_, rfl⟩
  rw [hb]
  unfold NRB_BIAS8
  omega

theorem readReserved_zeroes (r : List Nat) :
    readReserved (nrb_writeUint32 0 ++ (nrb_writeUint32 0 ++ (nrb_writeUint32 0 ++
      (nrb_writeUint32 0 ++ r)))) = some r := by
  unfold readReserved
  rw [nrb_readUint32_beBytes (by norm_num [NRB_MAXUINT32]), obind_some]
  dsimp only
  rw [nrb_readUint32_beBytes (by norm_num [NRB_MAXUINT32]), obind_some]
  dsimp only
  rw [nrb_readUint32_beBytes (by norm_num [NRB_MAXUINT32]), obind_some]
  dsimp only
  rw [nrb_readUint32_beBytes (by norm_num [NRB_MAXUINT32]), obind_some]
  rfl

theorem readSectLoop_serSects (l : List Int) (prev : Int) (r : List Nat)
    (hall : ∀ x ∈ l, 0 ≤ x ∧ x ≤ (NRB_MAXUINT64 : Int))
    (hchain : List.Chain (· ≤ ·) prev l) :
    readSectLoop l.length prev (serSects l ++ r) = some (l, r) := by
  induction l generalizing prev with
  | nil => simp [serSects, readSectLoop]
  | cons x l ih =>
    obtain ⟨hpx, hchain'⟩ := List.chain_cons.mp hchain
    obtain ⟨hx0, hxM⟩ := hall x (by simp)
    have hall' : ∀ y ∈ l, 0 ≤ y ∧ y ≤ (NRB_MAXUINT64 : Int) :=
      fun y hy => hall y (by simp [hy])
    show readSectLoop (l.length + 1) prev
      ((nrb_writeUint64 (toUint64 x) ++ serSects l) ++ r) = _
    rw [List.append_assoc]
    unfold readSectLoop
    rw [nrb_readUint64_toUint64 hx0 hxM, obind_some]
    dsimp only
    rw [if_neg (not_lt.mpr hpx)]
    rw [ih x hall' hchain', obind_some]
    rfl

theorem readSectTable_serSects (l : List Int) (r : List Nat) (h : sectsValid l) :
    readSectTable l.length (serSects l ++ r) = some (l, r) := by
  obtain ⟨hlen1, hlenM, hhead, hchain, hall⟩ := h
  cases l with
  | nil => simp at hlen1
  | cons x l =>
    have hx0 : x = 0 := by simpa using hhead
    subst hx0
    show readSectTable (l.length + 1)
      ((nrb_writeUint64 (toUint64 0) ++ serSects l) ++ r) = _
    rw [List.append_assoc]
    unfold readSectTable
    dsimp only
    rw [nrb_readUint64_toUint64 le_rfl (by unfold NRB_MAXUINT64; omega), obind_some]
    dsimp only
    rw [if_neg (by simp)]
    rw [readSectLoop_serSects l 0 r (fun y hy => hall y (by simp [hy])) hchain,
        obind_some]
    rfl

theorem serNote_eq (n : NRB_NOTE) (hp1 : NRB_MINPITCH ≤ n.pitch)
    (hp2 : n.pitch ≤ NRB_MAXPITCH) (ha : n.art ≤ 255) :
    serNote n = some (noteBytes n) := by
  have hple : ¬ (n.pitch < NRB_MINBIAS8 ∨ n.pitch > NRB_MAXBIAS8) := by
    unfold NRB_MINPITCH at hp1
    unfold NRB_MAXPITCH at hp2
    unfold NRB_MINBIAS8 NRB_MAXBIAS8
    omega
  have hpb : (n.pitch + NRB_BIAS8).toNat ≤ 255 := by
    unfold NRB_MINPITCH at hp1
    unfold NRB_MAXPITCH at hp2
    unfold NRB_BIAS8
    omega
  unfold serNote nrb_writeBias8 nrb_writeByte
  rw [if_neg hple, if_pos hpb, obind_some, if_pos ha, obind_some]
  rfl

theorem readNote_decode (sects : List Int) (n : NRB_NOTE) (r : List Nat)
    (hlenM : sects.length ≤ 65535) (h : noteValid sects n) :
    readNote sects (noteBytes n ++ r) = some (n, r) := by
  obtain ⟨h0, hsr, hrM, hp1, hp2, ha255, hart, hramp, hsect, hlay, hoff⟩ := h
  have hsM : n.start ≤ (NRB_MAXUINT64 : Int) := le_trans (le_of_lt hsr) hrM
  have hr0 : (0 : Int) ≤ n.release := le_trans h0 (le_of_lt hsr)
  unfold noteBytes at *
  show readNote sects ((nrb_writeUint64 (toUint64 n.start) ++
    (nrb_writeUint64 (toUint64 n.release) ++
    ([(n.pitch + NRB_BIAS8).toNat] ++ ([n.art] ++ (nrb_writeUint16 n.ramp ++
    (nrb_writeUint16 n.sect ++ nrb_writeUint16 n.layer_i)))))) ++ r) = _
  rw [List.append_assoc, List.append_assoc, List.append_assoc, List.append_assoc,
      List.append_assoc, List.append_assoc]
  unfold readNote
  rw [nrb_readUint64_toUint64 h0 hsM, obind_some]
  dsimp only
  rw [nrb_readUint64_toUint64 hr0 hrM, obind_some]
  dsimp only
  rw [if_neg (not_le.mpr hsr)]
  rw [show ([(n.pitch + NRB_BIAS8).toNat] : List Nat) ++
      ([n.art] ++ (nrb_writeUint16 n.ramp ++ (nrb_writeUint16 n.sect ++
        (nrb_writeUint16 n.layer_i ++ r)))) =
      (n.pitch + NRB_BIAS8).toNat :: ([n.art] ++ (nrb_writeUint16 n.ramp ++
        (nrb_writeUint16 n.sect ++ (nrb_writeUint16 n.layer_i ++ r)))) from rfl]
  rw [nrb_readBias8_encode (by
      unfold NRB_MINPITCH at hp1
      unfold NRB_MINBIAS8
      omega)
    (by
      unfold NRB_MAXPITCH at hp2
      unfold NRB_MAXBIAS8
      omega), obind_some]
  dsimp only
  rw [if_neg (by
    push_neg
    exact ⟨hp1, hp2⟩)]
  rw [show ([n.art] : List Nat) ++ (nrb_writeUint16 n.ramp ++
      (nrb_writeUint16 n.sect ++ (nrb_writeUint16 n.layer_i ++ r))) =
      n.art :: (nrb_writeUint16 n.ramp ++ (nrb_writeUint16 n.sect ++
        (nrb_writeUint16 n.layer_i ++ r))) from rfl]
  rw [show nrb_readByte (n.art :: (nrb_writeUint16 n.ramp ++ (nrb_writeUint16 n.sect ++
      (nrb_writeUint16 n.layer_i ++ r)))) = some (n.art, nrb_writeUint16 n.ramp ++
      (nrb_writeUint16 n.sect ++ (nrb_writeUint16 n.layer_i ++ r))) from by
    simp [nrb_readByte, ha255]]
  rw [obind_some]
  dsimp only
  rw [if_neg (not_lt.mpr hart)]
  rw [nrb_readUint16_beBytes (by unfold NRB_MAXRAMP at hramp; unfold NRB_MAXUINT16; omega),
      obind_some]
  dsimp only
  rw [if_neg (not_lt.mpr hramp)]
  rw [nrb_readUint16_beBytes (by unfold NRB_MAXUINT16; omega), obind_some]
  dsimp only
  rw [if_neg (not_le.mpr hsect)]
  rw [nrb_readUint16_beBytes (by unfold NRB_MAXUINT16; omega), obind_some]
  dsimp only [Option.pure_def]
  rw [if_neg (not_lt.mpr hoff)]

theorem serNotes_eq (sects : List Int) (ns : List NRB_NOTE)
    (h : ∀ n ∈ ns, noteValid sects n) :
    serNotes ns = some (notesBytes ns) := by
  induction ns with
  | nil => rfl
  | cons n ns ih =>
    obtain ⟨_, _, _, hp1, hp2, ha255, _⟩ := h n (by simp)
    unfold serNotes
    rw [serNote_eq n hp1 hp2 ha255, obind_some,
        ih (fun m hm => h m (by simp [hm])), obind_some]
    rfl

theorem readNotes_decode (sects : List Int) (ns : List NRB_NOTE) (r : List Nat)
    (hlenM : sects.length ≤ 65535) (h : ∀ n ∈ ns, noteValid sects n) :
    readNotes ns.length sects (notesBytes ns ++ r) = some (ns, r) := by
  induction ns with
  | nil => simp [notesBytes, readNotes]
  | cons n ns ih =>
    show readNotes (ns.length + 1) sects ((noteBytes n ++ notesBytes ns) ++ r) = _
    rw [List.append_assoc]
    unfold readNotes
    rw [readNote_decode sects n (notesBytes ns ++ r) hlenM (h n (by simp)), obind_some]
    dsimp only
    rw [ih (fun m hm => h m (by simp [hm])), obind_some]
    rfl

theorem parseSigVer_encode (rest : List Nat) :
    parseSigVer (nrb_writeUint32 NRB_SIGPRI ++ (nrb_writeUint32 NRB_SIGSEC ++
      ([1] ++ ([0] ++ rest)))) = some (1, 0, rest) := by
  unfold parseSigVer
  rw [nrb_readUint32_beBytes (by norm_num [NRB_SIGPRI, NRB_MAXUINT32]), obind_some]
  dsimp only
  rw [if_neg (by simp)]
  rw [nrb_readUint32_beBytes (by norm_num [NRB_SIGSEC, NRB_MAXUINT32]), obind_some]
  dsimp only
  rw [if_neg (by simp)]
  rw [show ([1] : List Nat) ++ ([0] ++ rest) = 1 :: ([0] ++ rest) from rfl]
  rw [show nrb_readByte (1 :: ([0] ++ rest)) = some (1, [0] ++ rest) from by
    simp [nrb_readByte]]
  rw [obind_some]
  dsimp only
  rw [show ([0] : List Nat) ++ rest = 0 :: rest from rfl]
  rw [show nrb_readByte (0 :: rest) = some (0, rest) from by simp [nrb_readByte]]
  rw [obind_some]
  rfl

theorem parseBody_encode (l : List Int) (ns : List NRB_NOTE) (rest : List Nat)
    (hsv : sectsValid l) (hns1 : 1 ≤ ns.length) (hnsM : ns.length ≤ NRB_MAXNOTE)
    (hnotes : ∀ n ∈ ns, noteValid l n) :
    parseBody (nrb_writeUint16 l.length ++ (nrb_writeUint32 ns.length ++
      (nrb_writeUint32 0 ++ (nrb_writeUint32 0 ++ (nrb_writeUint32 0 ++
      (nrb_writeUint32 0 ++ (serSects l ++ (notesBytes ns ++ rest)))))))) =
    some (⟨l, ns, l.length, ns.length⟩, rest) := by
  obtain ⟨hlen1, hlenM, hhead, hchain, hall⟩ := hsv
  have hlen655 : l.length ≤ NRB_MAXUINT16 := by
    unfold NRB_MAXSECT at hlenM
    unfold NRB_MAXUINT16
    omega
  have hnsM32 : ns.length ≤ NRB_MAXUINT32 := by
    unfold NRB_MAXNOTE at hnsM
    unfold NRB_MAXUINT32
    omega
  unfold parseBody
  rw [nrb_readUint16_beBytes hlen655, obind_some]
  dsimp only
  rw [if_neg (by
    push_neg
    exact ⟨hlen1, hlenM⟩)]
  rw [nrb_readUint32_beBytes hnsM32, obind_some]
  dsimp only
  rw [if_neg (by
    push_neg
    exact ⟨hns1, hnsM⟩)]
  rw [readReserved_zeroes, obind_some]
  rw [readSectTable_serSects l (notesBytes ns ++ rest)
      ⟨hlen1, hlenM, hhead, hchain, hall⟩, obind_some]
  dsimp only
  rw [readNotes_decode l ns rest (by
      unfold NRB_MAXSECT at hlenM
      omega) hnotes, obind_some]
  rfl

/-- Claim C1: round-trip.  For every valid document with at least one
note, nrb_serialize succeeds (nonzero status) and nrb_parse applied to
the produced byte stream succeeds with version status NRB_VER_OK,
returning a document whose section table and note table are exactly
those of the original, in the same order (the capacities of a parsed
document equal its counts). -/
theorem nrb_roundtrip (pd : NRB_DATA) (hv : docValid pd) (hne : pd.pNote ≠ []) :
    ∃ bs, nrb_serialize pd = some (true, bs) ∧
      nrb_parse bs = (some ⟨pd.pSect, pd.pNote, pd.pSect.length, pd.pNote.length⟩,
        NRB_VER_OK) := by
  obtain ⟨hsv, hnM, hnotes⟩ := hv
  have hne' : 0 < pd.pNote.length := List.length_pos.mpr hne
  refine ⟨nrb_writeUint32 NRB_SIGPRI ++ (nrb_writeUint32 NRB_SIGSEC ++
    ([1] ++ ([0] ++ (nrb_writeUint16 pd.pSect.length ++
    (nrb_writeUint32 pd.pNote.length ++ (nrb_writeUint32 0 ++ (nrb_writeUint32 0 ++
    (nrb_writeUint32 0 ++ (nrb_writeUint32 0 ++ (serSects pd.pSect ++
    (notesBytes pd.pNote ++ []))))))))))), ?_, ?_⟩
  · unfold nrb_serialize
    rw [if_pos hne']
    rw [show nrb_writeByte 1 = some [1] from rfl, obind_some]
    rw [show nrb_writeByte 0 = some [0] from rfl, obind_some]
    rw [serNotes_eq pd.pSect pd.pNote hnotes, obind_some]
    dsimp only [Option.pure_def]
    rw [Option.some.injEq, Prod.mk.injEq]
    refine ⟨rfl, ?_⟩
    simp [List.append_assoc]
  · unfold nrb_parse nrb_parseFull
    rw [parseSigVer_encode]
    dsimp only
    rw [if_neg (by simp)]
    rw [parseBody_encode pd.pSect pd.pNote [] hsv hne' hnM hnotes]
    rfl

/-- Witness for C1 at a concrete one-note document. -/
theorem nrb_roundtrip_witness :
    docValid ⟨[0], [⟨0, 1000, 0, 0, 0, 0, 0⟩], 1, 1⟩ ∧
    (⟨[0], [⟨0, 1000, 0, 0, 0, 0, 0⟩], 1, 1⟩ : NRB_DATA).pNote ≠ [] ∧
    (∃ bs, nrb_serialize ⟨[0], [⟨0, 1000, 0, 0, 0, 0, 0⟩], 1, 1⟩ = some (true, bs) ∧
      nrb_parse bs = (some ⟨[0], [⟨0, 1000, 0, 0, 0, 0, 0⟩], 1, 1⟩, NRB_VER_OK)) := by
  have hv : docValid ⟨[0], [⟨0, 1000, 0, 0, 0, 0, 0⟩], 1, 1⟩ :=
    ⟨⟨by decide, by decide, rfl, List.chain'_singleton 0, by decide⟩,
      by decide, by decide⟩
  have hne : (⟨[0], [⟨0, 1000, 0, 0, 0, 0, 0⟩], 1, 1⟩ : NRB_DATA).pNote ≠ [] := by
    simp
  exact ⟨hv, hne, nrb_roundtrip ⟨[0], [⟨0, 1000, 0, 0, 0, 0, 0⟩], 1, 1⟩ hv hne⟩
